import Mathlib

/-
  Verification development for the kube-copilot-extension repository.

  Shallow embedding of the orchestration engine in src/src/extension.ts and
  the tool-execution dispatch in src/src/kubernetes.ts.  JavaScript runtime
  values (the `args`/`result` payloads, which are arbitrary JSON-ish data at
  runtime) are modelled by the inductive `Val`; JavaScript `undefined` is a
  distinct constructor `vundef` (distinct from JSON `null`).  Exceptions
  thrown inside `executeTool` are modelled with `Except String`; the exact
  wording of messages produced by the JavaScript runtime itself (TypeError
  texts) is approximated by descriptive strings, while messages thrown
  explicitly by the source (`"Namespace not allowed"`, `"Image not allowed"`,
  `"Unable to understand request"`, ...) are reproduced verbatim.
-/

set_option maxRecDepth 20000
set_option linter.unusedVariables false

namespace KubeCopilot

/-- JSON-ish JavaScript value.  `vundef` models JavaScript `undefined`. -/
inductive Val : Type where
  | vnull : Val
  | vundef : Val
  | vbool : Bool → Val
  | vnum : Int → Val
  | vstr : String → Val
  | varr : List Val → Val
  | vobj : List (String × Val) → Val
  deriving Repr

mutual

/-- Decidable equality for `Val` (written manually: `Val` is a nested
inductive through `List`). -/
def Val.beq : Val → Val → Bool
  | .vnull, .vnull => true
  | Val.vundef, Val.vundef => true
  | .vbool a, .vbool b => a == b
  | .vnum a, .vnum b => a == b
  | .vstr a, .vstr b => a == b
  | .varr a, .varr b => Val.beqList a b
  | .vobj a, .vobj b => Val.beqFields a b
  | _, _ => false

def Val.beqList : List Val → List Val → Bool
  | [], [] => true
  | a :: as, b :: bs => Val.beq a b && Val.beqList as bs
  | _, _ => false

def Val.beqFields : List (String × Val) → List (String × Val) → Bool
  | [], [] => true
  | (k, a) :: as, (l, b) :: bs => k == l && Val.beq a b && Val.beqFields as bs
  | _, _ => false

end

mutual

def Val.beq_eq : ∀ a b : Val, Val.beq a b = true → a = b
  | .vnull, .vnull, _ => rfl
  | Val.vundef, Val.vundef, _ => rfl
  | .vbool a, .vbool b, h => by
      simp only [Val.beq] at h; rw [eq_of_beq h]
  | .vnum a, .vnum b, h => by
      simp only [Val.beq] at h; rw [eq_of_beq h]
  | .vstr a, .vstr b, h => by
      simp only [Val.beq] at h; rw [eq_of_beq h]
  | .varr a, .varr b, h => by
      simp only [Val.beq] at h
      exact congrArg Val.varr (Val.beqList_eq a b h)
  | .vobj a, .vobj b, h => by
      simp only [Val.beq] at h
      exact congrArg Val.vobj (Val.beqFields_eq a b h)

def Val.beqList_eq : ∀ a b : List Val, Val.beqList a b = true → a = b
  | [], [], _ => rfl
  | a :: as, b :: bs, h => by
      simp only [Val.beqList, Bool.and_eq_true] at h
      rw [Val.beq_eq a b h.1, Val.beqList_eq as bs h.2]

def Val.beqFields_eq : ∀ a b : List (String × Val), Val.beqFields a b = true → a = b
  | [], [], _ => rfl
  | (k, a) :: as, (l, b) :: bs, h => by
      simp only [Val.beqFields, Bool.and_eq_true] at h
      obtain ⟨⟨hk, ha⟩, hs⟩ := h
      rw [eq_of_beq hk, Val.beq_eq a b ha, Val.beqFields_eq as bs hs]

end

mutual

def Val.beq_refl : ∀ a : Val, Val.beq a a = true
  | .vnull => rfl
  | Val.vundef => rfl
  | .vbool a => by simp [Val.beq]
  | .vnum a => by simp [Val.beq]
  | .vstr a => by simp [Val.beq]
  | .varr a => by simp only [Val.beq]; exact Val.beqList_refl a
  | .vobj a => by simp only [Val.beq]; exact Val.beqFields_refl a

def Val.beqList_refl : ∀ a : List Val, Val.beqList a a = true
  | [] => rfl
  | a :: as => by
      simp only [Val.beqList, Bool.and_eq_true]
      exact ⟨Val.beq_refl a, Val.beqList_refl as⟩

def Val.beqFields_refl : ∀ a : List (String × Val), Val.beqFields a a = true
  | [] => rfl
  | (k, a) :: as => by
      simp only [Val.beqFields, Bool.and_eq_true]
      exact ⟨⟨by simp, Val.beq_refl a⟩, Val.beqFields_refl as⟩

end

instance : DecidableEq Val := fun a b =>
  if h : Val.beq a b = true then
    .isTrue (Val.beq_eq a b h)
  else
    .isFalse (fun he => h (he ▸ Val.beq_refl a))

/-- JavaScript truthiness: `false`, `0`, `""`, `null`, `undefined` are falsy. -/
def Val.truthy : Val → Bool
  | .vnull => false
  | Val.vundef => false
  | .vbool b => b
  | .vnum n => n != 0
  | .vstr s => s != ""
  | .varr _ => true
  | .vobj _ => true

/-- Property lookup on an object's field list (last occurrence wins is not
needed: the modelled objects never repeat keys; first match returned). -/
def lookupField : List (String × Val) → String → Option Val
  | [], _ => none
  | (k, v) :: rest, key => if k == key then some v else lookupField rest key

/-- JavaScript property access `a.k` on a non-null value: missing property
gives `undefined`; access on a non-object gives `undefined`. -/
def Val.getRaw (v : Val) (k : String) : Val :=
  match v with
  | .vobj fs => (lookupField fs k).getD Val.vundef
  | _ => Val.vundef

/-- Strict JavaScript property access `a.k`: throws a TypeError when `a` is
`null` or `undefined`. -/
def Val.get (v : Val) (k : String) : Except String Val :=
  match v with
  | .vnull => .error s!"Cannot read properties of null (reading {k})"
  | Val.vundef => .error s!"Cannot read properties of undefined (reading {k})"
  | _ => .ok (v.getRaw k)

/-- Optional chaining `a?.k`: `undefined` when `a` is `null`/`undefined`. -/
def Val.optGet (v : Val) (k : String) : Val :=
  match v with
  | .vnull => Val.vundef
  | Val.vundef => Val.vundef
  | _ => v.getRaw k

/-- JavaScript nullish coalescing `a ?? b`. -/
def Val.nullish (v : Val) (d : Val) : Val :=
  match v with
  | .vnull => d
  | Val.vundef => d
  | _ => v

/-- JavaScript logical-or default `a || b`. -/
def Val.orElseJs (v : Val) (d : Val) : Val :=
  if v.truthy then v else d

/-- Coarse model of JavaScript string conversion, used only for template
interpolation of values. -/
def Val.toStringJs : Val → String
  | .vnull => "null"
  | Val.vundef => "undefined"
  | .vbool b => if b then "true" else "false"
  | .vnum n => toString n
  | .vstr s => s
  | .varr _ => ""
  | .vobj _ => "[object Object]"

/-- Replace or add a field in an object field list (JavaScript assignment
`obj.k = v` for a plain object value). -/
def setField : List (String × Val) → String → Val → List (String × Val)
  | [], key, v => [(key, v)]
  | (k, w) :: rest, key, v =>
      if k == key then (k, v) :: rest else (k, w) :: setField rest key v

/-- JavaScript assignment `a.k = v` when `a` is an object; other receivers
are left unchanged (the source only assigns into objects). -/
def Val.setJs (v : Val) (k : String) (x : Val) : Val :=
  match v with
  | .vobj fs => .vobj (setField fs k x)
  | other => other

/-! ## Tool call data model (src/src/kubernetes.ts) -/

/-- Tool identifier.  Modelled as a raw string because the identifiers reach
`executeTool` from tolerantly-parsed oracle JSON, where any string can occur;
`knownTool` below delimits the `ToolName` union of the source. -/
structure ToolCall where
  tool : String
  args : List (String × Val)
  deriving DecidableEq, Repr

structure ToolResult where
  tool : String
  args : List (String × Val)
  ok : Bool
  result : Val
  deriving DecidableEq, Repr

/-- The `ToolName` union in src/src/kubernetes.ts. -/
def knownTool (t : String) : Bool :=
  t == "listNamespaces" ||
  t == "listNamespacedPod" ||
  t == "listNamespacedEvent" ||
  t == "listNamespacedDeployment" ||
  t == "listNamespacedService" ||
  t == "getService" ||
  t == "listNamespacedConfigMap" ||
  t == "getConfigMap" ||
  t == "listIstioObject" ||
  t == "getIstioObject" ||
  t == "getNamespace" ||
  t == "createNamespace" ||
  t == "createPod" ||
  t == "createDeployment" ||
  t == "updateDeployment" ||
  t == "updateDeploymentImage" ||
  t == "createIstioObject" ||
  t == "updateIstioObject" ||
  t == "createConfigMap" ||
  t == "updateConfigMap" ||
  t == "createService" ||
  t == "updateService" ||
  t == "deleteDeployment" ||
  t == "scaleDeployment" ||
  t == "getDeploymentStatus"

/-- `isMutating` from src/src/kubernetes.ts (lines 59-73). -/
def isMutating (tool : String) : Bool :=
  tool == "createNamespace" ||
  tool == "createPod" ||
  tool == "createDeployment" ||
  tool == "updateDeployment" ||
  tool == "updateDeploymentImage" ||
  tool == "createIstioObject" ||
  tool == "updateIstioObject" ||
  tool == "createConfigMap" ||
  tool == "updateConfigMap" ||
  tool == "createService" ||
  tool == "updateService" ||
  tool == "deleteDeployment" ||
  tool == "scaleDeployment"

/-- Extension configuration (`getExtensionConfig` in src/src/extension.ts).
The `allowedNamespaces` set is modelled as a list with membership test. -/
structure Config where
  defaultNamespace : String
  allowedNamespaces : List String
  maxReplicas : Int
  allowedImages : List String
  deriving DecidableEq, Repr

end KubeCopilot

namespace KubeCopilot

/-! ## Reducible string helpers

`String.toLower`/`String.trim` from the Lean library are implemented over
byte positions and do not reduce inside the kernel; the source only ever
lowercases/trims chat text, for which the ASCII behaviour of JavaScript's
`toLowerCase`/`trim` is modelled directly over the character list. -/

def lowerChar (c : Char) : Char :=
  if c = 'A' then 'a' else if c = 'B' then 'b' else if c = 'C' then 'c'
  else if c = 'D' then 'd' else if c = 'E' then 'e' else if c = 'F' then 'f'
  else if c = 'G' then 'g' else if c = 'H' then 'h' else if c = 'I' then 'i'
  else if c = 'J' then 'j' else if c = 'K' then 'k' else if c = 'L' then 'l'
  else if c = 'M' then 'm' else if c = 'N' then 'n' else if c = 'O' then 'o'
  else if c = 'P' then 'p' else if c = 'Q' then 'q' else if c = 'R' then 'r'
  else if c = 'S' then 's' else if c = 'T' then 't' else if c = 'U' then 'u'
  else if c = 'V' then 'v' else if c = 'W' then 'w' else if c = 'X' then 'x'
  else if c = 'Y' then 'y' else if c = 'Z' then 'z' else c

def lowerStr (s : String) : String := String.mk (s.data.map lowerChar)

def isWsTrimJs (c : Char) : Bool :=
  c == ' ' || c == '\t' || c == '\n' || c == '\r' || c == '\x0c' || c == '\x0b'

def trimJs (s : String) : String :=
  String.mk (((s.data.dropWhile isWsTrimJs).reverse.dropWhile isWsTrimJs).reverse)

/-- JavaScript `Number()` applied to a string of decimal digits; the only
use site (the replica-count capture of the scale pattern, `(\d+)`) is
guaranteed to be digits. -/
def digitsToNat (s : String) : Nat :=
  s.data.foldl (fun acc c => acc * 10 + (c.toNat - 48)) 0

/-! ## Cluster-management backend model

Each constructor of `Op` records one invocation of a Kubernetes client
method, with the argument values the source passes (configuration-derived
strings are kept as `String`, request-derived values as `Val`).  A
`Backend` maps an invocation to either a thrown error or a response value
`res` (whose `body` field the source reads). -/

inductive Op : Type where
  | listNamespace
  | listNamespacedPod (ns continueToken fieldSelector labelSelector limit : Val)
  | listNamespacedEvent (ns : Val) (fieldSelector : String)
  | listNamespacedDeployment (ns continueToken fieldSelector labelSelector limit : Val)
  | listNamespacedService (ns continueToken fieldSelector labelSelector limit : Val)
  | readNamespacedService (name ns : Val)
  | listNamespacedConfigMap (ns continueToken fieldSelector labelSelector limit : Val)
  | readNamespacedConfigMap (name ns : Val)
  | listNamespacedCustomObject (group version : String) (ns : Val) (plural : String)
      (continueToken fieldSelector labelSelector limit : Val)
  | getNamespacedCustomObject (group version : String) (ns : Val) (plural : String) (name : Val)
  | readNamespace (name : Val)
  | createNamespace (body : Val)
  | createNamespacedPod (ns body : Val)
  | createNamespacedDeployment (ns body : Val)
  | patchNamespacedDeployment (name ns patch : Val)
  | createNamespacedCustomObject (group version : String) (ns : Val) (plural : String) (body : Val)
  | patchNamespacedCustomObject (group version : String) (ns : Val) (plural : String)
      (name patch : Val)
  | createNamespacedService (ns body : Val)
  | createNamespacedConfigMap (ns body : Val)
  | replaceNamespacedConfigMap (name ns body : Val)
  | replaceNamespacedService (name ns body : Val)
  | readNamespacedDeployment (name ns : Val)
  | replaceNamespacedDeployment (name ns body : Val)
  | deleteNamespacedDeployment (name ns : Val)
  deriving DecidableEq, Repr

def Backend : Type := Op → Except String Val

def ToolCall.arg (call : ToolCall) (k : String) : Val :=
  (lookupField call.args k).getD Val.vundef

def errRes (call : ToolCall) (msg : String) : ToolResult :=
  ⟨call.tool, call.args, false, .vstr msg⟩

def okRes (call : ToolCall) (result : Val) : ToolResult :=
  ⟨call.tool, call.args, true, result⟩

/-- A failure raised before any backend invocation (policy/argument checks
in the `try` block): caught by the surrounding `catch`. -/
def preErr (call : ToolCall) (msg : String) : Option ToolResult × List Op :=
  (some (errRes call msg), [])

/-- One backend invocation followed by result post-processing; the
post-processing produces the success payload handed to the `ok` helper
(every case of the source returns through `ok(call, ...)`), and any error is
caught and mapped to a failed `ToolResult`. -/
def run1 (call : ToolCall) (B : Backend) (op : Op)
    (post : Val → Except String Val) : Option ToolResult × List Op :=
  match B op with
  | .error e => (some (errRes call e), [op])
  | .ok res =>
    match post res with
    | .ok payload => (some (okRes call payload), [op])
    | .error e => (some (errRes call e), [op])

/-- Read-then-write cases: a first backend invocation, a middle computation
producing the second invocation and its post-processing, with all failures
caught. -/
def run2 (call : ToolCall) (B : Backend) (op1 : Op)
    (mid : Val → Except String (Op × (Val → Except String Val))) :
    Option ToolResult × List Op :=
  match B op1 with
  | .error e => (some (errRes call e), [op1])
  | .ok res1 =>
    match mid res1 with
    | .error e => (some (errRes call e), [op1])
    | .ok (op2, fin) =>
      match B op2 with
      | .error e => (some (errRes call e), [op1, op2])
      | .ok res2 =>
        match fin res2 with
        | .ok payload => (some (okRes call payload), [op1, op2])
        | .error e => (some (errRes call e), [op1, op2])

def Val.isArr : Val → Bool
  | .varr _ => true
  | _ => false

/-- JavaScript `typeof x === "object"` (true for objects, arrays and null). -/
def Val.isObjectType : Val → Bool
  | .vobj _ => true
  | .varr _ => true
  | .vnull => true
  | _ => false

def Val.eqStr (v : Val) (s : String) : Bool := v == .vstr s

/-- Object spread `{...a, ...b}`: fields of `b` override fields of `a`;
spreading a non-object contributes no fields. -/
def spreadFields : Val → List (String × Val)
  | .vobj fs => fs
  | _ => []

def mergeSpread (a b : Val) : Val :=
  .vobj (List.foldl (fun acc (kv : String × Val) => setField acc kv.1 kv.2)
    (spreadFields a) (spreadFields b))

def Val.objKeys : Val → List Val
  | .vobj fs => fs.map (fun kv => .vstr kv.1)
  | _ => []

/-- `extractImagesFromDeploymentPatch` (src/src/kubernetes.ts lines 539-543). -/
def extractImagesFromDeploymentPatch (patch : Val) : List String :=
  match (((patch.optGet "spec").optGet "template").optGet "spec").optGet "containers" with
  | .varr cs =>
      (cs.map (fun c => c.optGet "image")).filterMap
        (fun v => match v with | .vstr s => some s | _ => none)
  | _ => []

/-- `getIstioResource` (src/src/kubernetes.ts lines 629-649): group, version,
plural for an Istio kind, or a thrown error for an unsupported kind. -/
def getIstioResource (kind : Val) : Except String (String × String × String) :=
  let normalized := lowerStr (kind.orElseJs (.vstr "")).toStringJs
  if normalized == "virtualservice" then
    .ok ("networking.istio.io", "v1beta1", "virtualservices")
  else if normalized == "destinationrule" then
    .ok ("networking.istio.io", "v1beta1", "destinationrules")
  else if normalized == "gateway" then
    .ok ("networking.istio.io", "v1beta1", "gateways")
  else if normalized == "serviceentry" then
    .ok ("networking.istio.io", "v1beta1", "serviceentries")
  else if normalized == "authorizationpolicy" then
    .ok ("security.istio.io", "v1beta1", "authorizationpolicies")
  else if normalized == "peerauthentication" then
    .ok ("security.istio.io", "v1beta1", "peerauthentications")
  else if normalized == "requestauthentication" then
    .ok ("security.istio.io", "v1beta1", "requestauthentications")
  else
    .error s!"Unsupported Istio kind: {kind.toStringJs}"

/-- `summarizeK8sItem` (src/src/kubernetes.ts lines 549-627). -/
def summarizeK8sItem (item : Val) (kindHint : Val) : Except String Val := do
  let kind := kindHint.nullish (item.optGet "kind")
  let meta := (item.optGet "metadata").nullish (.vobj [])
  let name := meta.optGet "name"
  let ns := meta.optGet "namespace"
  let labels := meta.optGet "labels"
  if kindHint.eqStr "Pod" || kind.eqStr "Pod" then
    let status := (item.optGet "status").nullish (.vobj [])
    let containers := ((item.optGet "spec").optGet "containers").nullish (.varr [])
    let cs ←
      match containers with
      | .varr l =>
          pure (l.map (fun c =>
            Val.vobj [("name", c.optGet "name"), ("image", c.optGet "image")]))
      | _ => .error "containers.map is not a function"
    pure (.vobj [("kind", .vstr "Pod"), ("name", name), ("namespace", ns),
      ("phase", status.getRaw "phase"), ("nodeName", status.getRaw "nodeName"),
      ("podIP", status.getRaw "podIP"), ("containers", .varr cs), ("labels", labels)])
  else if kindHint.eqStr "Deployment" || kind.eqStr "Deployment" then
    let spec := (item.optGet "spec").nullish (.vobj [])
    let status := (item.optGet "status").nullish (.vobj [])
    pure (.vobj [("kind", .vstr "Deployment"), ("name", name), ("namespace", ns),
      ("replicas", spec.getRaw "replicas"),
      ("availableReplicas", status.getRaw "availableReplicas"),
      ("updatedReplicas", status.getRaw "updatedReplicas"),
      ("strategy", (spec.optGet "strategy").optGet "type"), ("labels", labels)])
  else if kindHint.eqStr "Service" || kind.eqStr "Service" then
    let spec := (item.optGet "spec").nullish (.vobj [])
    let ports ←
      match spec.getRaw "ports" with
      | .vnull => pure Val.vundef
      | Val.vundef => pure Val.vundef
      | .varr l =>
          pure (Val.varr (l.map (fun p =>
            Val.vobj [("port", p.optGet "port"), ("targetPort", p.optGet "targetPort"),
              ("protocol", p.optGet "protocol")])))
      | _ => .error "spec.ports.map is not a function"
    pure (.vobj [("kind", .vstr "Service"), ("name", name), ("namespace", ns),
      ("type", spec.getRaw "type"), ("clusterIP", spec.getRaw "clusterIP"),
      ("ports", ports), ("selector", spec.getRaw "selector"), ("labels", labels)])
  else if kindHint.eqStr "ConfigMap" || kind.eqStr "ConfigMap" then
    let data := (item.optGet "data").nullish (.vobj [])
    let binaryData := (item.optGet "binaryData").nullish (.vobj [])
    pure (.vobj [("kind", .vstr "ConfigMap"), ("name", name), ("namespace", ns),
      ("dataKeys", .varr data.objKeys), ("binaryDataKeys", .varr binaryData.objKeys),
      ("labels", labels)])
  else
    let spec := (item.optGet "spec").nullish (.vobj [])
    let base := [("kind", kindHint.nullish kind), ("name", name), ("namespace", ns),
      ("labels", labels)]
    let base := if (spec.getRaw "hosts").isArr then base ++ [("hosts", spec.getRaw "hosts")] else base
    let base := if (spec.getRaw "gateways").isArr then base ++ [("gateways", spec.getRaw "gateways")] else base
    let base := if (spec.getRaw "selector").truthy then base ++ [("selector", spec.getRaw "selector")] else base
    let base := if (spec.getRaw "ports").isArr then base ++ [("ports", spec.getRaw "ports")] else base
    let base := if (spec.getRaw "servers").isArr then base ++ [("servers", spec.getRaw "servers")] else base
    pure (.vobj base)

def summarizeK8sList (items : List Val) (kindHint : Val) : Except String (List Val) :=
  items.mapM (fun item => summarizeK8sItem item kindHint)

/-- The summarizing branch of the `ok` helper (src/src/kubernetes.ts lines
524-537), at payload level: the `ToolResult` itself is built uniformly by
`run1`/`run2` from this payload. -/
def summarizePayload (result : Val) (kindHint : Val) : Except String Val :=
  if result.truthy && (result.getRaw "items").isArr then
    let ct := ((result.getRaw "metadata").optGet "continue").nullish
      ((result.getRaw "metadata").optGet "_continue")
    match result.getRaw "items" with
    | .varr l => do
        let items ← summarizeK8sList l kindHint
        pure (Val.vobj [("items", .varr items), ("continueToken", ct)])
    | _ => pure result
  else
    pure result

end KubeCopilot

namespace KubeCopilot

/-- `executeTool` (src/src/kubernetes.ts lines 75-522).  Returns the
`ToolResult` (or `none` for a tool identifier outside the `switch`, where
the source function falls through and resolves to `undefined`), paired with
the ordered list of backend invocations performed.  The namespace /
image / replica policy checks that are commented out in the source are,
faithfully, absent here; the only active policy check is the image check in
the `updateDeployment` case. -/
def executeTool (B : Backend) (allowedNamespaces : List String)
    (allowedImages : List String) (maxReplicas : Int) (call : ToolCall) :
    Option ToolResult × List Op :=
  if call.tool == "listNamespaces" then
    run1 call B .listNamespace (fun res => do
      let body ← res.get "body"
      let items ← body.get "items"
      match items with
      | .varr l => do
          let names ← l.mapM (fun i => do
            let m ← i.get "metadata"
            pure (m.optGet "name"))
          pure (Val.varr (names.filter Val.truthy))
      | _ => .error "res.body.items.map is not a function")
  else if call.tool == "listNamespacedPod" then
    let ns := call.arg "namespace"
    let labelSelector := call.arg "labelSelector"
    let fieldSelector := call.arg "fieldSelector"
    let limit := (call.arg "limit").nullish (.vnum 50)
    let continueToken := call.arg "continueToken"
    run1 call B (.listNamespacedPod ns continueToken fieldSelector labelSelector limit)
      (fun res => do
        let body ← res.get "body"
        summarizePayload body (.vstr "Pod"))
  else if call.tool == "listNamespacedEvent" then
    let ns := (call.arg "namespace").orElseJs (.vstr "default")
    run1 call B (.listNamespacedEvent ns s!"involvedObject.namespace={ns.toStringJs}")
      (fun res => do
        let body ← res.get "body"
        let items ← body.get "items"
        match items with
        | .varr l => do
            let evs ← l.mapM (fun i => do
              let m ← i.get "metadata"
              pure (Val.vobj [("name", m.optGet "name"), ("message", i.optGet "message"),
                ("namespace", (i.getRaw "metadata").optGet "namespace")]))
            pure (Val.varr evs)
        | _ => .error "res.body.items.map is not a function")
  else if call.tool == "listNamespacedDeployment" then
    let ns := call.arg "namespace"
    let labelSelector := call.arg "labelSelector"
    let fieldSelector := call.arg "fieldSelector"
    let limit := (call.arg "limit").nullish (.vnum 50)
    let continueToken := call.arg "continueToken"
    run1 call B (.listNamespacedDeployment ns continueToken fieldSelector labelSelector limit)
      (fun res => do
        let body ← res.get "body"
        summarizePayload body (.vstr "Deployment"))
  else if call.tool == "listNamespacedService" then
    let ns := call.arg "namespace"
    let labelSelector := call.arg "labelSelector"
    let fieldSelector := call.arg "fieldSelector"
    let limit := (call.arg "limit").nullish (.vnum 50)
    let continueToken := call.arg "continueToken"
    run1 call B (.listNamespacedService ns continueToken fieldSelector labelSelector limit)
      (fun res => do
        let body ← res.get "body"
        summarizePayload body (.vstr "Service"))
  else if call.tool == "getService" then
    let ns := call.arg "namespace"
    let name := call.arg "name"
    run1 call B (.readNamespacedService name ns) (fun res => do
      let body ← res.get "body"
      pure body)
  else if call.tool == "listNamespacedConfigMap" then
    let ns := call.arg "namespace"
    let labelSelector := call.arg "labelSelector"
    let fieldSelector := call.arg "fieldSelector"
    let limit := (call.arg "limit").nullish (.vnum 50)
    let continueToken := call.arg "continueToken"
    run1 call B (.listNamespacedConfigMap ns continueToken fieldSelector labelSelector limit)
      (fun res => do
        let body ← res.get "body"
        summarizePayload body (.vstr "ConfigMap"))
  else if call.tool == "getConfigMap" then
    let ns := call.arg "namespace"
    let name := call.arg "name"
    run1 call B (.readNamespacedConfigMap name ns) (fun res => do
      let body ← res.get "body"
      pure body)
  else if call.tool == "listIstioObject" then
    let ns := call.arg "namespace"
    let kind := call.arg "kind"
    let labelSelector := call.arg "labelSelector"
    let fieldSelector := call.arg "fieldSelector"
    let limit := (call.arg "limit").nullish (.vnum 50)
    let continueToken := call.arg "continueToken"
    match getIstioResource kind with
    | .error e => preErr call e
    | .ok (group, version, plural) =>
      run1 call B (.listNamespacedCustomObject group version ns plural
          (continueToken.nullish .vnull) (fieldSelector.nullish .vnull)
          (labelSelector.nullish .vnull) (limit.nullish .vnull))
        (fun res => do
          let body ← res.get "body"
          summarizePayload body kind)
  else if call.tool == "getIstioObject" then
    let ns := call.arg "namespace"
    let kind := call.arg "kind"
    let name := call.arg "name"
    match getIstioResource kind with
    | .error e => preErr call e
    | .ok (group, version, plural) =>
      run1 call B (.getNamespacedCustomObject group version ns plural name) (fun res => do
        let body ← res.get "body"
        pure body)
  else if call.tool == "getNamespace" then
    run1 call B (.readNamespace (call.arg "name")) (fun res => do
      let body ← res.get "body"
      let meta ← body.get "metadata"
      pure (Val.vobj [("name", meta.optGet "name")]))
  else if call.tool == "createNamespace" then
    let name := call.arg "name"
    run1 call B (.createNamespace (.vobj [("metadata", .vobj [("name", name)])]))
      (fun res => do
        let body ← res.get "body"
        let meta ← body.get "metadata"
        pure (Val.vobj [("name", meta.optGet "name")]))
  else if call.tool == "createPod" then
    let ns := call.arg "namespace"
    let name := call.arg "name"
    let image := call.arg "image"
    let pod : Val := .vobj [("apiVersion", .vstr "v1"), ("kind", .vstr "Pod"),
      ("metadata", .vobj [("name", name)]),
      ("spec", .vobj [("restartPolicy", .vstr "Never"),
        ("containers", .varr [.vobj [("name", .vstr "main"), ("image", image)]])])]
    run1 call B (.createNamespacedPod ns pod) (fun res => do
      let body ← res.get "body"
      let meta ← body.get "metadata"
      pure (Val.vobj [("name", meta.optGet "name")]))
  else if call.tool == "createDeployment" then
    let ns := call.arg "namespace"
    let name := call.arg "name"
    let image := call.arg "image"
    let replicas := (call.arg "replicas").nullish (.vnum 1)
    let port := call.arg "port"
    let deployment : Val := .vobj [("apiVersion", .vstr "apps/v1"),
      ("kind", .vstr "Deployment"), ("metadata", .vobj [("name", name)]),
      ("spec", .vobj [("replicas", replicas),
        ("selector", .vobj [("matchLabels", .vobj [("app", name)])]),
        ("template", .vobj [("metadata", .vobj [("labels", .vobj [("app", name)])]),
          ("spec", .vobj [("containers", .varr [.vobj [("name", .vstr "app"),
            ("image", image),
            ("ports", if port.truthy then .varr [.vobj [("containerPort", port)]]
              else Val.vundef)]])])])])]
    run1 call B (.createNamespacedDeployment ns deployment) (fun res => do
      let body ← res.get "body"
      let meta ← body.get "metadata"
      pure (Val.vobj [("name", meta.optGet "name")]))
  else if call.tool == "updateDeployment" then
    let ns := call.arg "namespace"
    let name := call.arg "name"
    let patch := call.arg "patch"
    if !patch.truthy || !patch.isObjectType then
      preErr call "Patch must be an object"
    else
      let images := extractImagesFromDeploymentPatch patch
      if !allowedImages.isEmpty &&
          images.any (fun img => !allowedImages.any (fun p => img.startsWith p)) then
        preErr call "Image not allowed"
      else
        run1 call B (.patchNamespacedDeployment name ns patch) (fun res => do
          let body ← res.get "body"
          let meta ← body.get "metadata"
          pure (Val.vobj [("name", meta.optGet "name")]))
  else if call.tool == "createIstioObject" then
    let ns := call.arg "namespace"
    let kind := call.arg "kind"
    let manifest := call.arg "manifest"
    if !manifest.truthy || !manifest.isObjectType then
      preErr call "Manifest must be an object"
    else
      match getIstioResource kind with
      | .error e => preErr call e
      | .ok (group, version, plural) =>
        run1 call B (.createNamespacedCustomObject group version ns plural manifest)
          (fun res => do
            let body ← res.get "body"
            pure body)
  else if call.tool == "updateIstioObject" then
    let ns := call.arg "namespace"
    let kind := call.arg "kind"
    let name := call.arg "name"
    let patch := call.arg "patch"
    if !patch.truthy || !patch.isObjectType then
      preErr call "Patch must be an object"
    else
      match getIstioResource kind with
      | .error e => preErr call e
      | .ok (group, version, plural) =>
        run1 call B (.patchNamespacedCustomObject group version ns plural name patch)
          (fun res => do
            let body ← res.get "body"
            pure body)
  else if call.tool == "createService" then
    let ns := call.arg "namespace"
    let name := call.arg "name"
    let selector := call.arg "selector"
    let port := call.arg "port"
    let targetPort := call.arg "targetPort"
    let type := call.arg "type"
    let service : Val := .vobj [("apiVersion", .vstr "v1"), ("kind", .vstr "Service"),
      ("metadata", .vobj [("name", name)]),
      ("spec", .vobj [("type", type.nullish (.vstr "ClusterIP")), ("selector", selector),
        ("ports", .varr [.vobj [("port", port), ("targetPort", targetPort.nullish port)]])])]
    run1 call B (.createNamespacedService ns service) (fun res => do
      let body ← res.get "body"
      let meta ← body.get "metadata"
      pure (Val.vobj [("name", meta.optGet "name")]))
  else if call.tool == "createConfigMap" then
    let ns := call.arg "namespace"
    let name := call.arg "name"
    let data := call.arg "data"
    let binaryData := call.arg "binaryData"
    let cm : Val := .vobj [("apiVersion", .vstr "v1"), ("kind", .vstr "ConfigMap"),
      ("metadata", .vobj [("name", name)]), ("data", data), ("binaryData", binaryData)]
    run1 call B (.createNamespacedConfigMap ns cm) (fun res => do
      let body ← res.get "body"
      let meta ← body.get "metadata"
      pure (Val.vobj [("name", meta.optGet "name")]))
  else if call.tool == "updateConfigMap" then
    let ns := call.arg "namespace"
    let name := call.arg "name"
    let data := call.arg "data"
    let binaryData := call.arg "binaryData"
    if !data.truthy && !binaryData.truthy then
      preErr call "No ConfigMap data to update"
    else
      run2 call B (.readNamespacedConfigMap name ns) (fun current => do
        let cm ← current.get "body"
        let cm := cm.setJs "data" (mergeSpread ((cm.getRaw "data").nullish (.vobj []))
          (data.nullish (.vobj [])))
        let cm := cm.setJs "binaryData" (mergeSpread ((cm.getRaw "binaryData").nullish (.vobj []))
          (binaryData.nullish (.vobj [])))
        pure (Op.replaceNamespacedConfigMap name ns cm, fun updated => do
          let body ← updated.get "body"
          let meta ← body.get "metadata"
          pure (Val.vobj [("name", meta.optGet "name")])))
  else if call.tool == "updateService" then
    let ns := call.arg "namespace"
    let name := call.arg "name"
    let selector := call.arg "selector"
    let port := call.arg "port"
    let targetPort := call.arg "targetPort"
    let type := call.arg "type"
    if !selector.truthy && !port.truthy && !targetPort.truthy && !type.truthy then
      preErr call "No service fields to update"
    else
      run2 call B (.readNamespacedService name ns) (fun current => do
        let service ← current.get "body"
        let spec0 ← service.get "spec"
        let service := if !spec0.truthy then service.setJs "spec" (.vobj []) else service
        let service := if type.truthy then
            service.setJs "spec" ((service.getRaw "spec").setJs "type" type) else service
        let service := if selector.truthy then
            service.setJs "spec" ((service.getRaw "spec").setJs "selector" selector) else service
        let service := if port.truthy || targetPort.truthy then
            service.setJs "spec" ((service.getRaw "spec").setJs "ports"
              (.varr [.vobj [("port", port.nullish (.vnum 80)),
                ("targetPort", targetPort.nullish (port.nullish (.vnum 80)))]]))
          else service
        pure (Op.replaceNamespacedService name ns service, fun updated => do
          let body ← updated.get "body"
          let meta ← body.get "metadata"
          pure (Val.vobj [("name", meta.optGet "name")])))
  else if call.tool == "updateDeploymentImage" then
    let ns := call.arg "namespace"
    let name := call.arg "name"
    let image := call.arg "image"
    run2 call B (.readNamespacedDeployment name ns) (fun res => do
      let deployment ← res.get "body"
      let spec0 ← deployment.get "spec"
      let containers := (((spec0.optGet "template").optGet "spec").optGet
        "containers").nullish (.varr [])
      match containers with
      | .varr (c :: cs) =>
        let newContainers : Val := .varr (c.setJs "image" image :: cs)
        let deployment := if !spec0.truthy then deployment.setJs "spec" (.vobj [])
          else deployment
        let deployment := if !(((deployment.getRaw "spec").getRaw "template").truthy) then
            deployment.setJs "spec" ((deployment.getRaw "spec").setJs "template" (.vobj []))
          else deployment
        let deployment := if !((((deployment.getRaw "spec").getRaw "template").getRaw
            "spec").truthy) then
            deployment.setJs "spec" ((deployment.getRaw "spec").setJs "template"
              (((deployment.getRaw "spec").getRaw "template").setJs "spec" (.vobj [])))
          else deployment
        let deployment := deployment.setJs "spec" ((deployment.getRaw "spec").setJs "template"
          (((deployment.getRaw "spec").getRaw "template").setJs "spec"
            ((((deployment.getRaw "spec").getRaw "template").getRaw "spec").setJs
              "containers" newContainers)))
        pure (Op.replaceNamespacedDeployment name ns deployment, fun updated => do
          let body ← updated.get "body"
          let meta ← body.get "metadata"
          pure (Val.vobj [("name", meta.optGet "name")]))
      | _ => .error "No containers found to update")
  else if call.tool == "deleteDeployment" then
    let ns := call.arg "namespace"
    let name := call.arg "name"
    run1 call B (.deleteNamespacedDeployment name ns) (fun res => do
      let body ← res.get "body"
      pure (Val.vobj [("status", body.optGet "status"),
        ("details", body.optGet "details")]))
  else if call.tool == "scaleDeployment" then
    let ns := call.arg "namespace"
    let name := call.arg "name"
    let replicas := call.arg "replicas"
    run2 call B (.readNamespacedDeployment name ns) (fun current => do
      let deployment ← current.get "body"
      let spec0 ← deployment.get "spec"
      let deployment := if !spec0.truthy then deployment.setJs "spec" (.vobj [])
        else deployment
      let deployment := deployment.setJs "spec"
        ((deployment.getRaw "spec").setJs "replicas" replicas)
      pure (Op.replaceNamespacedDeployment name ns deployment, fun updated => do
        let body ← updated.get "body"
        let meta ← body.get "metadata"
        pure (Val.vobj [("name", meta.optGet "name"),
          ("replicas", (body.getRaw "spec").optGet "replicas")])))
  else if call.tool == "getDeploymentStatus" then
    run1 call B (.readNamespacedDeployment (call.arg "name") (call.arg "namespace"))
      (fun res => do
        let body ← res.get "body"
        let status ← body.get "status"
        pure status)
  else
    (none, [])

end KubeCopilot

namespace KubeCopilot

/-! ## Fallback planner (src/src/extension.ts lines 454-660)

The source matches the lowercased request text with `String.includes` and a
handful of JavaScript regular expressions.  The regexes are sequences of
literals, `(?:a|b)` alternations of literals, `\s+`, capturing `(\S+)` /
`(\d+)`, and one `.*`; the engine below implements exactly these
constructs with JavaScript semantics (leftmost match, greedy quantifiers
with backtracking, alternation tried left to right). -/

def isWsJs (c : Char) : Bool :=
  c == ' ' || c == '\t' || c == '\n' || c == '\r' || c == '\x0c' || c == '\x0b'

inductive Pat : Type where
  | lit (s : String)
  | alt (xs : List String)
  | ws1
  | cap1
  | capd
  | dotStar
  deriving Repr

def countLeading (p : Char → Bool) : List Char → Nat
  | [] => 0
  | c :: rest => if p c then countLeading p rest + 1 else 0

/-- Ways one pattern atom can consume a prefix of the input, most preferred
first, each with the captures it produces. -/
def Pat.consume : Pat → List Char → List (List String × List Char)
  | .lit s, input =>
      if s.data.isPrefixOf input then [([], input.drop s.length)] else []
  | .alt xs, input =>
      xs.filterMap (fun x =>
        if x.data.isPrefixOf input then some ([], input.drop x.length) else none)
  | .ws1, input =>
      let m := countLeading isWsJs input
      (List.range m).map (fun i => ([], input.drop (m - i)))
  | .cap1, input =>
      let m := countLeading (fun c => !isWsJs c) input
      (List.range m).map (fun i =>
        ([String.mk (input.take (m - i))], input.drop (m - i)))
  | .capd, input =>
      let m := countLeading Char.isDigit input
      (List.range m).map (fun i =>
        ([String.mk (input.take (m - i))], input.drop (m - i)))
  | .dotStar, input =>
      let m := countLeading (fun c => c != '\n' && c != '\r') input
      (List.range (m + 1)).map (fun i => ([], input.drop (m - i)))

def matchPats : List Pat → List Char → Option (List String)
  | [], _ => some []
  | p :: ps, input =>
      (p.consume input).findSome? (fun alt =>
        (matchPats ps alt.2).map (fun more => alt.1 ++ more))

def jsMatchAux (ps : List Pat) : List Char → Option (List String)
  | [] => matchPats ps []
  | c :: rest =>
      match matchPats ps (c :: rest) with
      | some r => some r
      | none => jsMatchAux ps rest

def jsMatch (ps : List Pat) (s : String) : Option (List String) :=
  jsMatchAux ps s.data

def charsContains (hay needle : List Char) : Bool :=
  match hay with
  | [] => needle.isPrefixOf ([] : List Char)
  | _ :: rest => needle.isPrefixOf hay || charsContains rest needle

/-- JavaScript `s.includes(sub)`. -/
def jsIncludes (s sub : String) : Bool := charsContains s.data sub.data

structure Plan where
  summary : String
  toolCalls : List ToolCall
  done : Bool
  deriving DecidableEq, Repr

def createDepPat : List Pat := [.alt ["create", "deploy"], .ws1, .lit "deployment", .ws1, .cap1]
def updateImagePat : List Pat :=
  [.lit "update", .ws1, .lit "deployment", .ws1, .cap1, .dotStar, .lit "image", .ws1, .cap1]
def deleteDepPat : List Pat := [.alt ["delete", "remove"], .ws1, .lit "deployment", .ws1, .cap1]
def createSvcPat : List Pat := [.alt ["create", "expose"], .ws1, .lit "service", .ws1, .cap1]
def updateSvcPat : List Pat := [.lit "update", .ws1, .lit "service", .ws1, .cap1]
def getSvcPat : List Pat := [.alt ["get", "describe"], .ws1, .lit "service", .ws1, .cap1]
def scalePat : List Pat := [.lit "scale", .ws1, .cap1, .ws1, .lit "to", .ws1, .capd]

/-- Branches of `fallbackPlan` below the prior-results branch, in source
order. -/
def fallbackRest (text defaultNamespace : String) : Except String Plan :=
  if jsIncludes text "namespace" && (jsIncludes text "list" || jsIncludes text "what") then
    .ok ⟨"List all namespaces", [⟨"listNamespaces", []⟩], true⟩
  else if jsIncludes text "pod" && jsIncludes text "all" then
    .ok ⟨"List all namespaces first", [⟨"listNamespaces", []⟩], false⟩
  else if jsIncludes text "deploy" && jsIncludes text "nginx" then
    .ok ⟨"Deploy nginx pod",
      [⟨"getNamespace", [("name", .vstr defaultNamespace)]⟩,
       ⟨"createPod", [("namespace", .vstr defaultNamespace), ("name", .vstr "nginx"),
         ("image", .vstr "nginx:latest")]⟩], true⟩
  else match jsMatch createDepPat text with
  | some (m1 :: _) =>
    .ok ⟨s!"Create deployment {m1}",
      [⟨"createDeployment", [("namespace", .vstr defaultNamespace), ("name", .vstr m1),
        ("image", .vstr "nginx:latest")]⟩], true⟩
  | _ =>
  match jsMatch updateImagePat text with
  | some (m1 :: m2 :: _) =>
    .ok ⟨s!"Update deployment {m1} image",
      [⟨"updateDeploymentImage", [("namespace", .vstr defaultNamespace), ("name", .vstr m1),
        ("image", .vstr m2)]⟩], true⟩
  | _ =>
  match jsMatch deleteDepPat text with
  | some (m1 :: _) =>
    .ok ⟨s!"Delete deployment {m1}",
      [⟨"deleteDeployment", [("namespace", .vstr defaultNamespace), ("name", .vstr m1)]⟩], true⟩
  | _ =>
  if jsIncludes text "deployment" && (jsIncludes text "list" || jsIncludes text "show") then
    .ok ⟨"List deployments",
      [⟨"listNamespacedDeployment", [("namespace", .vstr defaultNamespace)]⟩], true⟩
  else match jsMatch createSvcPat text with
  | some (m1 :: _) =>
    .ok ⟨s!"Create service {m1}",
      [⟨"createService", [("namespace", .vstr defaultNamespace), ("name", .vstr m1),
        ("selector", .vobj [("app", .vstr m1)]), ("port", .vnum 80)]⟩], true⟩
  | _ =>
  match jsMatch updateSvcPat text with
  | some (m1 :: _) =>
    .ok ⟨s!"Update service {m1}",
      [⟨"updateService", [("namespace", .vstr defaultNamespace), ("name", .vstr m1),
        ("port", .vnum 80)]⟩], true⟩
  | _ =>
  match jsMatch getSvcPat text with
  | some (m1 :: _) =>
    .ok ⟨s!"Get service {m1}",
      [⟨"getService", [("namespace", .vstr defaultNamespace), ("name", .vstr m1)]⟩], true⟩
  | _ =>
  if jsIncludes text "service" && (jsIncludes text "list" || jsIncludes text "show") then
    .ok ⟨"List services",
      [⟨"listNamespacedService", [("namespace", .vstr defaultNamespace)]⟩], true⟩
  else match jsMatch scalePat text with
  | some (m1 :: m2 :: _) =>
    .ok ⟨s!"Scale deployment {m1} to {m2}",
      [⟨"scaleDeployment", [("name", .vstr m1), ("namespace", .vstr defaultNamespace),
        ("replicas", .vnum (digitsToNat m2 : Int))]⟩], true⟩
  | _ =>
  .error "Unable to understand request"

/-- `fallbackPlan` (src/src/extension.ts lines 454-660).  A thrown
JavaScript error is an `Except.error`. -/
def fallbackPlan (userText : String) (defaultNamespace : String)
    (priorResults : List ToolResult) : Except String Plan :=
  let text := lowerStr userText
  let branch1 : Option (Except String Plan) :=
    match priorResults with
    | r0 :: _ =>
      if r0.tool == "listNamespaces" then
        if jsIncludes text "pod" && jsIncludes text "all" then
          some (match r0.result with
            | .varr nss =>
                .ok ⟨"List pods in all namespaces",
                  nss.map (fun ns => ⟨"listNamespacedPod", [("namespace", ns)]⟩), true⟩
            | _ => .error "namespaces.map is not a function")
        else none
      else none
    | [] => none
  match branch1 with
  | some r => r
  | none => fallbackRest text defaultNamespace

/-! ## Orchestration loop (src/src/extension.ts)

The planner adapter (`planWithLm`, which consults the oracle and falls back
to `fallbackPlan`) and the tool dispatcher (`executeTool` applied to the
loaded kubeconfig and configuration) are parameters of the loop model: the
loop claims hold for every planner and dispatcher behaviour. -/

def Planner : Type := String → List ToolResult → Except String Plan

structure PendingAction where
  originalUserText : String
  plan : Plan
  pendingToolCalls : List ToolCall
  priorResults : List ToolResult
  deriving DecidableEq, Repr

inductive LoopEnd : Type where
  | failed (msg : String)
  | suspended
  | doneExit
  | exhausted
  deriving DecidableEq, Repr

structure LoopRes where
  executed : List ToolCall
  results : List ToolResult
  plannerCalls : Nat
  pending : Option PendingAction
  summary : String
  ended : LoopEnd
  maxNotice : Bool
  formatted : Bool
  deriving DecidableEq, Repr

def MAX_ITERATIONS : Nat := 10

/-- One execution of the `while` loop body and its continuation in
`runAgentLoop` (src/src/extension.ts lines 179-234), with
`fuel = MAX_ITERATIONS - iterationCount` and `count = iterationCount`.
`executed` is the ordered trace of `executeTool` invocations so far;
`results` is `allResults`. -/
def runLoopAux (planner : Planner) (exec : ToolCall → ToolResult) (userText : String) :
    Nat → Nat → List ToolResult → List ToolCall → String → LoopRes
  | 0, count, results, executed, summary =>
      ⟨executed, results, count, none, summary, .exhausted,
        decide (count ≥ MAX_ITERATIONS), true⟩
  | fuel + 1, count, results, executed, summary =>
      match planner userText results with
      | .error msg =>
          ⟨executed, results, count + 1, none, summary, .failed msg, false, false⟩
      | .ok plan =>
          if plan.toolCalls.isEmpty && plan.done then
            ⟨executed, results, count + 1, none, plan.summary, .doneExit,
              decide (count + 1 ≥ MAX_ITERATIONS), true⟩
          else if !(plan.toolCalls.filter (fun c => isMutating c.tool)).isEmpty then
            ⟨executed ++ plan.toolCalls.filter (fun c => !isMutating c.tool),
             results ++ (plan.toolCalls.filter (fun c => !isMutating c.tool)).map exec,
             count + 1,
             some ⟨userText, plan, plan.toolCalls.filter (fun c => isMutating c.tool),
               results ++ (plan.toolCalls.filter (fun c => !isMutating c.tool)).map exec⟩,
             plan.summary, .suspended, false, false⟩
          else if plan.done then
            ⟨executed ++ plan.toolCalls.filter (fun c => !isMutating c.tool),
             results ++ (plan.toolCalls.filter (fun c => !isMutating c.tool)).map exec,
             count + 1, none, plan.summary, .doneExit,
             decide (count + 1 ≥ MAX_ITERATIONS), true⟩
          else
            runLoopAux planner exec userText fuel (count + 1)
              (results ++ (plan.toolCalls.filter (fun c => !isMutating c.tool)).map exec)
              (executed ++ plan.toolCalls.filter (fun c => !isMutating c.tool))
              plan.summary

/-- `runAgentLoop` (src/src/extension.ts lines 164-234). -/
def runAgentLoop (planner : Planner) (exec : ToolCall → ToolResult) (userText : String)
    (initialResults : List ToolResult) : LoopRes :=
  runLoopAux planner exec userText MAX_ITERATIONS 0 initialResults [] ""

/-- The affirmative pattern of `handlePendingAction`:
regex `^(confirm|yes|proceed|ok)$` with the case-insensitive flag. -/
def isAffirm (s : String) : Bool :=
  let t := lowerStr s
  t == "confirm" || t == "yes" || t == "proceed" || t == "ok"

/-- The negative pattern of `handlePendingAction`:
regex `^(cancel|no|stop)$` with the case-insensitive flag. -/
def isNeg (s : String) : Bool :=
  let t := lowerStr s
  t == "cancel" || t == "no" || t == "stop"

structure TurnRes where
  executed : List ToolCall
  pendingAfter : Option PendingAction
  confirmResults : Option (List ToolResult)
  prompted : Bool
  cancelled : Bool
  helpShown : Bool
  deriving DecidableEq, Repr

/-- `handleChatRequest` together with `handlePendingAction`
(src/src/extension.ts lines 65-162) for one user turn.
`st` is the entry of `pendingBySession` for this session's key;
`pendingAfter` is that entry after the turn.  In the fall-through case
(neither pattern matched), `handlePendingAction` returns `false` without
touching the session map, and the fresh `runAgentLoop` only overwrites the
entry if it suspends — so the old entry survives otherwise. -/
def handleTurn (planner : Planner) (exec : ToolCall → ToolResult) (kcOk : Bool)
    (st : Option PendingAction) (requestText : String) : TurnRes :=
  let userText := (trimJs requestText)
  if userText == "" then ⟨[], st, none, false, false, true⟩
  else if !kcOk then ⟨[], st, none, false, false, false⟩
  else
    match st with
    | some pending =>
      if isAffirm userText then
        let results := pending.priorResults ++ pending.pendingToolCalls.map exec
        if !pending.plan.done then
          let lr := runAgentLoop planner exec pending.originalUserText results
          ⟨pending.pendingToolCalls ++ lr.executed, lr.pending, some results,
            lr.ended == .suspended, false, false⟩
        else
          ⟨pending.pendingToolCalls, none, some results, false, false, false⟩
      else if isNeg userText then
        ⟨[], none, none, false, true, false⟩
      else
        let lr := runAgentLoop planner exec userText []
        ⟨lr.executed, lr.pending.orElse (fun _ => st), none,
          lr.ended == .suspended, false, false⟩
    | none =>
      let lr := runAgentLoop planner exec userText []
      ⟨lr.executed, lr.pending, none, lr.ended == .suspended, false, false⟩

end KubeCopilot

namespace KubeCopilot

/-! ## Tolerant plan parsing (src/src/extension.ts lines 400-433)

The source computes `JSON.parse(jsonrepair(raw.replace("```json", "")
.replace("```", "")))` and then, when the parsed value is an array, scans
it for the first plan-shaped element.  `String.replace` with a string
pattern replaces only the first occurrence; `removeFirst` models the two
`replace(_, "")` calls.

Modelled from the spec: the `jsonrepair` npm dependency is not part of this
repository; per the spec it "repairs common JSON defects (trailing
commas, minor syntactic slips)".  `tolParse` therefore models the composite
`JSON.parse ∘ jsonrepair` as a JSON parser that tolerates a trailing comma
before a closing brace or bracket. -/

def removeFirst (needle : List Char) : List Char → List Char
  | [] => []
  | c :: rest =>
      if needle.isPrefixOf (c :: rest) then (c :: rest).drop needle.length
      else c :: removeFirst needle rest

def cleanOracle (raw : String) : String :=
  String.mk (removeFirst "```".data (removeFirst "```json".data raw.data))

def isJsonWs (c : Char) : Bool :=
  c == ' ' || c == '\t' || c == '\n' || c == '\r'

def skipWs : List Char → List Char
  | [] => []
  | c :: rest => if isJsonWs c then skipWs rest else c :: rest

def unescapeChar (c : Char) : Option Char :=
  if c = '"' then some '"'
  else if c = '\\' then some '\\'
  else if c = '/' then some '/'
  else if c = 'n' then some '\n'
  else if c = 't' then some '\t'
  else if c = 'r' then some '\r'
  else if c = 'b' then some '\x08'
  else if c = 'f' then some '\x0c'
  else none

/-- Body of a JSON string after the opening quote: returns the decoded
characters and the input after the closing quote. -/
def parseStrBody : List Char → Option (List Char × List Char)
  | [] => none
  | '"' :: rest => some ([], rest)
  | '\\' :: [] => none
  | '\\' :: e :: rest2 =>
      (match unescapeChar e with
       | some u => (parseStrBody rest2).map (fun p => (u :: p.1, p.2))
       | none => none)
  | c :: rest =>
      if c.toNat < 32 then none
      else (parseStrBody rest).map (fun p => (c :: p.1, p.2))

def digitVal (c : Char) : Nat := c.toNat - 48

def parseNatChars (input : List Char) : Option (Nat × List Char) :=
  let ds := input.takeWhile Char.isDigit
  if ds.isEmpty then none
  else some (Nat.ofDigits 10 (ds.map digitVal).reverse, input.dropWhile Char.isDigit)

mutual

def parseVal : Nat → List Char → Option (Val × List Char)
  | 0, _ => none
  | fuel + 1, input =>
    match skipWs input with
    | [] => none
    | c :: r =>
      if c = '{' then parseObjBody fuel r
      else if c = '[' then parseArrBody fuel r
      else if c = '"' then (parseStrBody r).map (fun p => (.vstr (String.mk p.1), p.2))
      else if c = '-' then (parseNatChars r).map (fun p => (.vnum (-(p.1 : Int)), p.2))
      else if c.isDigit then
        (parseNatChars (c :: r)).map (fun p => (.vnum (p.1 : Int), p.2))
      else if ['t', 'r', 'u', 'e'].isPrefixOf (c :: r) then some (.vbool true, (c :: r).drop 4)
      else if ['f', 'a', 'l', 's', 'e'].isPrefixOf (c :: r) then
        some (.vbool false, (c :: r).drop 5)
      else if ['n', 'u', 'l', 'l'].isPrefixOf (c :: r) then some (.vnull, (c :: r).drop 4)
      else none

def parseObjBody : Nat → List Char → Option (Val × List Char)
  | 0, _ => none
  | fuel + 1, input =>
    match skipWs input with
    | [] => none
    | c :: r =>
      if c = '}' then some (.vobj [], r)
      else
        (parseMember fuel (c :: r)).bind (fun mp =>
          (parseMembersRest fuel mp.2).map (fun msp => (Val.vobj (mp.1 :: msp.1), msp.2)))

def parseMember : Nat → List Char → Option ((String × Val) × List Char)
  | 0, _ => none
  | fuel + 1, input =>
    match skipWs input with
    | '"' :: r =>
      (parseStrBody r).bind (fun kp =>
        match skipWs kp.2 with
        | ':' :: r2 =>
          (parseVal fuel r2).map (fun vp => ((String.mk kp.1, vp.1), vp.2))
        | _ => none)
    | _ => none

def parseMembersRest : Nat → List Char → Option (List (String × Val) × List Char)
  | 0, _ => none
  | fuel + 1, input =>
    match skipWs input with
    | ',' :: r =>
      (match skipWs r with
       | '}' :: r2 => some ([], r2)
       | r2 =>
         (parseMember fuel r2).bind (fun mp =>
           (parseMembersRest fuel mp.2).map (fun msp => (mp.1 :: msp.1, msp.2))))
    | '}' :: r => some ([], r)
    | _ => none

def parseArrBody : Nat → List Char → Option (Val × List Char)
  | 0, _ => none
  | fuel + 1, input =>
    match skipWs input with
    | [] => none
    | c :: r =>
      if c = ']' then some (.varr [], r)
      else
        (parseVal fuel (c :: r)).bind (fun vp =>
          (parseElemsRest fuel vp.2).map (fun vsp => (Val.varr (vp.1 :: vsp.1), vsp.2)))

def parseElemsRest : Nat → List Char → Option (List Val × List Char)
  | 0, _ => none
  | fuel + 1, input =>
    match skipWs input with
    | ',' :: r =>
      (match skipWs r with
       | [] => none
       | c :: r2 =>
         if c = ']' then some ([], r2)
         else
           (parseVal fuel (c :: r2)).bind (fun vp =>
             (parseElemsRest fuel vp.2).map (fun vsp => (vp.1 :: vsp.1, vsp.2))))
    | ']' :: r => some ([], r)
    | _ => none

end

/-- Tolerant parse of a whole document: leading/trailing whitespace allowed,
trailing commas inside objects and arrays tolerated. -/
def tolParse (s : String) : Option Val :=
  match parseVal (4 * s.length + 8) s.data with
  | some (v, rest) => if (skipWs rest).isEmpty then some v else none
  | none => none

/-! ### JSON rendering (`JSON.stringify`, compact form) -/

def escChar (c : Char) : List Char :=
  if c = '"' then ['\\', '"']
  else if c = '\\' then ['\\', '\\']
  else if c = '\n' then ['\\', 'n']
  else if c = '\t' then ['\\', 't']
  else if c = '\r' then ['\\', 'r']
  else [c]

def escChars : List Char → List Char
  | [] => []
  | c :: rest => escChar c ++ escChars rest

def digitChar (d : Nat) : Char :=
  match d with
  | 0 => '0' | 1 => '1' | 2 => '2' | 3 => '3' | 4 => '4'
  | 5 => '5' | 6 => '6' | 7 => '7' | 8 => '8' | 9 => '9'
  | _ => '*'

def natChars (n : Nat) : List Char :=
  if n = 0 then ['0'] else ((Nat.digits 10 n).map digitChar).reverse

def intChars (n : Int) : List Char :=
  if n < 0 then '-' :: natChars n.natAbs else natChars n.toNat

def renderStr (s : String) : List Char := '"' :: escChars s.data ++ ['"']

mutual

def renderChars : Val → List Char
  | .vnull => ['n', 'u', 'l', 'l']
  | Val.vundef => ['n', 'u', 'l', 'l']
  | .vbool true => ['t', 'r', 'u', 'e']
  | .vbool false => ['f', 'a', 'l', 's', 'e']
  | .vnum n => intChars n
  | .vstr s => renderStr s
  | .varr xs => '[' :: renderElemsChars xs ++ [']']
  | .vobj fs => '{' :: renderMembersChars fs ++ ['}']

def renderElemsChars : List Val → List Char
  | [] => []
  | x :: t => renderChars x ++ renderElemsTail t

def renderElemsTail : List Val → List Char
  | [] => []
  | x :: t => ',' :: (renderChars x ++ renderElemsTail t)

def renderMembersChars : List (String × Val) → List Char
  | [] => []
  | m :: t => (renderStr m.1 ++ ':' :: renderChars m.2) ++ renderMembersTail t

def renderMembersTail : List (String × Val) → List Char
  | [] => []
  | m :: t => ',' :: ((renderStr m.1 ++ ':' :: renderChars m.2) ++ renderMembersTail t)

end

def renderVal (v : Val) : String := String.mk (renderChars v)

/-- The same document with one trailing comma inserted after the last field
of the top-level object. -/
def renderValTC (v : Val) : String :=
  match v with
  | .vobj fs => String.mk ('{' :: renderMembersChars fs ++ [',', '}'])
  | v => renderVal v

/-- Wrap a document in a markdown code fence. -/
def fenceWrap (s : String) : String := "```json\n" ++ s ++ "\n```"

/-- Well-formedness for the universally quantified plan document of the
trailing-comma claim: no JavaScript `undefined`, string content restricted
to characters whose rendering the parser model covers (printable characters
plus tab, newline, carriage return) and free of backticks (a backtick
inside a string collides with the source's fence-stripping `replace`
calls; see the counterexample). -/
def wfChar (c : Char) : Bool :=
  c != '`' && (decide (32 ≤ c.toNat) || c = '\n' || c = '\t' || c = '\r')

def wfStr (s : String) : Bool := s.data.all wfChar

mutual

def wfVal : Val → Bool
  | .vnull => true
  | Val.vundef => false
  | .vbool _ => true
  | .vnum _ => true
  | .vstr s => wfStr s
  | .varr xs => wfElems xs
  | .vobj fs => wfFields fs

def wfElems : List Val → Bool
  | [] => true
  | x :: t => wfVal x && wfElems t

def wfFields : List (String × Val) → Bool
  | [] => true
  | m :: t => wfStr m.1 && wfVal m.2 && wfFields t

end

/-- Membership test of the `in` operator as used by the array scan. -/
def hasKey (v : Val) (k : String) : Bool :=
  match v with
  | .vobj fs => (lookupField fs k).isSome
  | _ => false

def Val.isBool : Val → Bool
  | .vbool _ => true
  | _ => false

/-- Normalization of one array element (src/src/extension.ts line 415):
a string element that starts with a brace after trimming is parsed as JSON
(`none` models a thrown parse error, which the outer catch turns into the
fallback); anything else is used as is. -/
def normalizeElem (e : Val) : Option Val :=
  match e with
  | .vstr s =>
      if (trimJs s).data.head? == some '{' then tolParse s else some e
  | e => some e

def scanPlanArr (orig : Val) : List Val → Option Val
  | [] => some orig
  | e :: rest =>
    match normalizeElem e with
    | none => none
    | some ej =>
      if ej.truthy && ej.isObjectType && hasKey ej "summary" && hasKey ej "toolCalls" &&
          hasKey ej "done" && (ej.getRaw "done").isBool then
        some ej
      else scanPlanArr orig rest

/-- Array handling after `JSON.parse` (src/src/extension.ts lines 409-428):
an array is scanned for the first plan-shaped element; if none matches, the
parsed value itself is returned (`return parsedJson as Plan`). -/
def toPlanVal (parsed : Val) : Option Val :=
  match parsed with
  | .varr xs => scanPlanArr parsed xs
  | v => some v

/-- The whole tolerant parsing pipeline of `planWithLm` on a raw oracle
response: fence-stripping, repair+parse, array scan.  `none` means the
`catch` branch is taken and the deterministic fallback planner runs. -/
def planParse (raw : String) : Option Val :=
  match tolParse (cleanOracle raw) with
  | none => none
  | some p => toPlanVal p

/-! ## Result formatting (src/src/extension.ts lines 666-689) -/

def encodeToolResult (r : ToolResult) : Val :=
  .vobj [("tool", .vstr r.tool), ("args", .vobj r.args), ("ok", .vbool r.ok),
    ("result", r.result)]

/-- `JSON.stringify(results, null, 2)`; the pretty-printing indentation is
abstracted to the compact rendering (the formatter claim only depends on
what is emitted to the stream, not on this string's whitespace). -/
def renderResults (rs : List ToolResult) : String :=
  renderVal (.varr (rs.map encodeToolResult))

/-- `formatWithLm`: `lmAvailable` models whether `vscode.lm` exists;
`models` is the list returned by `selectChatModels`, each model represented
by the chunk sequence its `sendRequest(...).text` would stream.  The first
component of the output is the sequence of `stream.markdown` emissions the
user sees; the second is the function's return value — which every caller
in the source discards. -/
def formatWithLm (lmAvailable : Bool) (models : List (List String))
    (userText summary : String) (results : List ToolResult) : List String × String :=
  if !lmAvailable then ([], renderResults results)
  else
    match models.head? with
    | none => ([], renderResults results)
    | some chunks => (chunks, String.join chunks)

end KubeCopilot

namespace KubeCopilot

/-! ## Fuel accounting for the tolerant parser

`costV v` bounds the fuel the parser consumes on the rendering of `v`;
`tolParse` passes `4 * length + 8`, which dominates it (proved below). -/

mutual

def costV : Val → Nat
  | .varr xs => 2 + costElems xs
  | .vobj fs => 2 + costFields fs
  | _ => 1

def costElems : List Val → Nat
  | [] => 1
  | x :: t => 1 + costV x + costElems t

def costFields : List (String × Val) → Nat
  | [] => 1
  | m :: t => 1 + costV m.2 + costFields t

end

/-- After a rendered number the input must not continue with a digit (it
never does: renderings are followed by a separator or the end). -/
def numRestOk : Val → List Char → Bool
  | .vnum _, c :: _ => !c.isDigit
  | _, _ => true

/-! ## Concrete fixtures used by witnesses and counterexamples -/

/-- A dispatcher fixture: every call succeeds with a `null` payload. -/
def execFixture : ToolCall → ToolResult := fun c => ⟨c.tool, c.args, true, .vnull⟩

/-- A backend fixture: every invocation succeeds with an empty list body. -/
def BListFixture : Backend := fun _ =>
  .ok (.vobj [("body", .vobj [("items", .varr []), ("metadata", .vobj [])])])

def prodPodCall : ToolCall := ⟨"listNamespacedPod", [("namespace", .vstr "prod")]⟩

def prodCreatePodCall : ToolCall :=
  ⟨"createPod", [("namespace", .vstr "prod"), ("name", .vstr "web"),
    ("image", .vstr "nginx:latest")]⟩

def redisCreatePodCall : ToolCall :=
  ⟨"createPod", [("namespace", .vstr "dev"), ("name", .vstr "cache"),
    ("image", .vstr "redis:latest")]⟩

def scaleCall : ToolCall :=
  ⟨"scaleDeployment", [("name", .vstr "payments-api"), ("namespace", .vstr "dev"),
    ("replicas", .vnum 3)]⟩

/-- A pending action holding one queued mutating call, with `done = true`. -/
def pendScale : PendingAction :=
  ⟨"scale payments-api to 3",
   ⟨"Scale deployment payments-api to 3", [scaleCall], true⟩, [scaleCall], []⟩

/-- A planner fixture that immediately reports completion with no calls. -/
def plannerGreet : Planner := fun _ _ => .ok ⟨"nothing to do", [], true⟩

/-- A planner fixture that never finishes: no calls, `done = false`. -/
def plannerSpin : Planner := fun _ _ => .ok ⟨"thinking", [], false⟩

def nginxCreateCall : ToolCall :=
  ⟨"createPod", [("namespace", .vstr "dev"), ("name", .vstr "nginx"),
    ("image", .vstr "nginx:latest")]⟩

def nginxPlan : Plan := ⟨"Deploy nginx pod", [nginxCreateCall], true⟩

/-- A planner fixture that proposes one mutating call and reports done. -/
def plannerMut : Planner := fun _ _ => .ok nginxPlan

/-- The pending action `runAgentLoop` stores for `plannerMut` on the turn
"deploy nginx". -/
def pendMut : PendingAction := ⟨"deploy nginx", nginxPlan, [nginxCreateCall], []⟩

/-- The backtick-containing plan document of the C10 counterexample. -/
def trickyPlanVal : Val :=
  .vobj [("summary", .vstr "a```jsonb"), ("toolCalls", .varr []), ("done", .vbool true)]

/-- A well-formed plan document for witnesses. -/
def simplePlanVal : Val :=
  .vobj [("summary", .vstr "list pods"),
    ("toolCalls", .varr [.vobj [("tool", .vstr "listNamespaces"), ("args", .vobj [])]]),
    ("done", .vbool true)]

def sampleResult : ToolResult := ⟨"listNamespaces", [], true, .varr [.vstr "dev"]⟩

/-- Shape of every `ToolResult` built by `executeTool`: it echoes the call's
tool and args, and a failed result carries the error message string. -/
def resultShape (call : ToolCall) (r : ToolResult) : Prop :=
  r.tool = call.tool ∧ r.args = call.args ∧ (r.ok = false → ∃ m, r.result = .vstr m)

end KubeCopilot

namespace KubeCopilot

/-! ## Helper lemmas -/

theorem shape_errRes (call : ToolCall) (m : String) : resultShape call (errRes call m) :=
  ⟨rfl, rfl, fun _ => ⟨m, rfl⟩⟩

theorem shape_okRes (call : ToolCall) (v : Val) : resultShape call (okRes call v) :=
  ⟨rfl, rfl, fun h => by simp [okRes] at h⟩

theorem run1_goal (call : ToolCall) (B : Backend) (op : Op) (post : Val → Except String Val) :
    (∃ r, (run1 call B op post).1 = some r) ∧
    ∀ r, (run1 call B op post).1 = some r → resultShape call r := by
  unfold run1
  rcases hB : B op with e | res <;> simp only [hB]
  · exact ⟨⟨_, rfl⟩, fun r hr => by
      simp only [Option.some.injEq] at hr; exact hr ▸ shape_errRes call e⟩
  · rcases hp : post res with e | payload <;> simp only [hp]
    · exact ⟨⟨_, rfl⟩, fun r hr => by
        simp only [Option.some.injEq] at hr; exact hr ▸ shape_errRes call e⟩
    · exact ⟨⟨_, rfl⟩, fun r hr => by
        simp only [Option.some.injEq] at hr; exact hr ▸ shape_okRes call payload⟩

theorem run2_goal (call : ToolCall) (B : Backend) (op1 : Op)
    (mid : Val → Except String (Op × (Val → Except String Val))) :
    (∃ r, (run2 call B op1 mid).1 = some r) ∧
    ∀ r, (run2 call B op1 mid).1 = some r → resultShape call r := by
  unfold run2
  rcases hB : B op1 with e | res1 <;> simp only [hB]
  · exact ⟨⟨_, rfl⟩, fun r hr => by
      simp only [Option.some.injEq] at hr; exact hr ▸ shape_errRes call e⟩
  · rcases hm : mid res1 with e | op2fin <;> simp only [hm]
    · exact ⟨⟨_, rfl⟩, fun r hr => by
        simp only [Option.some.injEq] at hr; exact hr ▸ shape_errRes call e⟩
    · obtain ⟨op2, fin⟩ := op2fin
      rcases hB2 : B op2 with e | res2 <;> simp only [hB2]
      · exact ⟨⟨_, rfl⟩, fun r hr => by
          simp only [Option.some.injEq] at hr; exact hr ▸ shape_errRes call e⟩
      · rcases hf : fin res2 with e | payload <;> simp only [hf]
        · exact ⟨⟨_, rfl⟩, fun r hr => by
            simp only [Option.some.injEq] at hr; exact hr ▸ shape_errRes call e⟩
        · exact ⟨⟨_, rfl⟩, fun r hr => by
            simp only [Option.some.injEq] at hr; exact hr ▸ shape_okRes call payload⟩

theorem preErr_goal (call : ToolCall) (m : String) :
    (∃ r, (preErr call m).1 = some r) ∧
    ∀ r, (preErr call m).1 = some r → resultShape call r :=
  ⟨⟨_, rfl⟩, fun r hr => by
    simp only [preErr, Option.some.injEq] at hr; exact hr ▸ shape_errRes call m⟩

/-! ## Claim theorems -/

/-- Claim C2 (code bug): the spec requires that a tool call targeting a
namespace outside the configured allow-set fails with a namespace-not-allowed
result and never reaches the backend, but in the code every namespace check
is commented out: with `allowedNamespaces = ["dev","qa"]`, both a read call
and a mutating call targeting `"prod"` invoke the backend and return a
successful result. -/
theorem namespace_policy_code_bug :
    (executeTool BListFixture ["dev", "qa"] [] 20 prodPodCall).2
      = [Op.listNamespacedPod (.vstr "prod") Val.vundef Val.vundef Val.vundef (.vnum 50)]
    ∧ ((executeTool BListFixture ["dev", "qa"] [] 20 prodPodCall).1.map ToolResult.ok)
      = some true
    ∧ (executeTool BListFixture ["dev", "qa"] [] 20 prodCreatePodCall).2 ≠ []
    ∧ ((executeTool BListFixture ["dev", "qa"] [] 20 prodCreatePodCall).1.map ToolResult.ok)
      = some true := by
  refine ⟨rfl, rfl, by decide, rfl⟩

/-- Claim C3 (code bug): the spec requires that with a non-empty
allowed-image-prefix list a `createPod` whose image matches no prefix fails
with an image-not-allowed result and never reaches the backend, but the
image check in the `createPod` case is commented out: with
`allowedImagePrefixes = ["nginx:"]`, creating a pod with image
`"redis:latest"` invokes the backend and returns a successful result. -/
theorem image_policy_code_bug :
    (executeTool BListFixture ["dev"] ["nginx:"] 20 redisCreatePodCall).2 ≠ []
    ∧ ((executeTool BListFixture ["dev"] ["nginx:"] 20 redisCreatePodCall).1.map
        ToolResult.ok) = some true := by
  exact ⟨by decide, rfl⟩

/-- Claim C6 (counterexample): `executeTool` does not always return a
`ToolResult`: for a tool identifier outside the known enumeration the
`switch` has no default case and the function resolves to `undefined`
(modelled as `none`) instead of a failed `ToolResult`. -/
theorem unknown_tool_no_result :
    (executeTool BListFixture [] [] 20 ⟨"explodeCluster", []⟩).1 = none := rfl

/-- Claim C6 (amended): for every tool call whose identifier is in the known
operation enumeration, `executeTool` never raises past its own boundary and
always returns a `ToolResult` that echoes the call's tool and args, and
every failure is mapped to `ok = false` with the error message as the
result; a call with an identifier outside the enumeration instead yields no
`ToolResult` (the JavaScript function resolves to `undefined`). -/
theorem executeTool_total_on_known_tools (B : Backend) (aNs aImgs : List String)
    (maxR : Int) (call : ToolCall) (h : knownTool call.tool = true) :
    (∃ r, (executeTool B aNs aImgs maxR call).1 = some r) ∧
    ∀ r, (executeTool B aNs aImgs maxR call).1 = some r → resultShape call r := by
  simp only [knownTool, Bool.or_eq_true, beq_iff_eq] at h
  unfold executeTool
  repeat obtain h | h := h
  all_goals simp only [h, String.reduceBEq, Bool.false_eq_true, if_false, if_true]
  all_goals
    first
    | exact run1_goal ..
    | exact run2_goal ..
    | (split <;>
        first
        | exact run1_goal ..
        | exact run2_goal ..
        | exact preErr_goal ..
        | (split <;>
            first
            | exact run1_goal ..
            | exact run2_goal ..
            | exact preErr_goal ..))

/-- Claim C6 witness: the amended theorem applied to a concrete known call. -/
theorem executeTool_total_on_known_tools_witness :
    ∃ r, (executeTool BListFixture [] [] 20 prodPodCall).1 = some r :=
  (executeTool_total_on_known_tools BListFixture [] [] 20 prodPodCall (by decide)).1

end KubeCopilot

namespace KubeCopilot

theorem mem_readonly {l : List ToolCall} {c : ToolCall}
    (h : c ∈ l.filter (fun c => !isMutating c.tool)) : isMutating c.tool = false := by
  simp only [List.mem_filter, Bool.not_eq_true'] at h
  exact h.2

theorem mem_mutating {l : List ToolCall} {c : ToolCall}
    (h : c ∈ l.filter (fun c => isMutating c.tool)) : isMutating c.tool = true := by
  simp only [List.mem_filter] at h
  exact h.2

/-- Combined invariants of the bounded planning loop: newly executed calls
are read-only; at most `fuel` further planner calls occur; exhaustion means
exactly the cap was used, with the notice and final formatting; a stored
pending action means the loop suspended at the confirmation prompt, and it
queues a non-empty list of exclusively mutating calls. -/
theorem runLoopAux_spec (planner : Planner) (exec : ToolCall → ToolResult)
    (userText : String) :
    ∀ (fuel count : Nat) (results : List ToolResult) (executed : List ToolCall)
      (summary : String),
      (∀ c ∈ (runLoopAux planner exec userText fuel count results executed summary).executed,
          c ∈ executed ∨ isMutating c.tool = false)
      ∧ (runLoopAux planner exec userText fuel count results executed summary).plannerCalls
          ≤ count + fuel
      ∧ ((runLoopAux planner exec userText fuel count results executed summary).ended
            = .exhausted →
          (runLoopAux planner exec userText fuel count results executed summary).plannerCalls
              = count + fuel
          ∧ (runLoopAux planner exec userText fuel count results executed summary).maxNotice
              = decide (count + fuel ≥ MAX_ITERATIONS)
          ∧ (runLoopAux planner exec userText fuel count results executed summary).formatted
              = true)
      ∧ (∀ pa,
          (runLoopAux planner exec userText fuel count results executed summary).pending
              = some pa →
          (runLoopAux planner exec userText fuel count results executed summary).ended
              = .suspended
          ∧ pa.pendingToolCalls ≠ []
          ∧ ∀ c ∈ pa.pendingToolCalls, isMutating c.tool = true)
      ∧ ((runLoopAux planner exec userText fuel count results executed summary).ended
            = .suspended ↔
          (runLoopAux planner exec userText fuel count results executed summary).pending.isSome)
      := by
  intro fuel
  induction fuel with
  | zero =>
      intro count results executed summary
      refine ⟨fun c hc => .inl hc, Nat.le_refl _, fun _ => ⟨rfl, rfl, rfl⟩,
        fun pa hpa => by simp [runLoopAux] at hpa, by simp [runLoopAux]⟩
  | succ fuel ih =>
      intro count results executed summary
      simp only [runLoopAux]
      rcases hp : planner userText results with msg | plan <;> simp only []
      · exact ⟨fun c hc => .inl hc, by (try dsimp only); omega, fun h => by simp at h,
          fun pa hpa => by simp at hpa, by simp⟩
      · split_ifs with h1 h2 h3
        · exact ⟨fun c hc => .inl hc, by (try dsimp only); omega, fun h => by simp at h,
            fun pa hpa => by simp at hpa, by simp⟩
        · refine ⟨?_, by (try dsimp only); omega, fun h => by simp at h, ?_, by simp⟩
          · intro c hc
            rcases List.mem_append.mp hc with hc | hc
            · exact .inl hc
            · exact .inr (mem_readonly hc)
          · intro pa hpa
            simp only [Option.some.injEq] at hpa
            subst hpa
            refine ⟨rfl, ?_, fun c hc => mem_mutating hc⟩
            simpa [List.isEmpty_iff] using h2
        · refine ⟨?_, by (try dsimp only); omega, fun h => by simp at h, fun pa hpa => by simp at hpa, by simp⟩
          intro c hc
          rcases List.mem_append.mp hc with hc | hc
          · exact .inl hc
          · exact .inr (mem_readonly hc)
        · obtain ⟨ihExec, ihCalls, ihExh, ihPend, ihSusp⟩ :=
            ih (count + 1)
              (results ++ (plan.toolCalls.filter (fun c => !isMutating c.tool)).map exec)
              (executed ++ plan.toolCalls.filter (fun c => !isMutating c.tool)) plan.summary
          refine ⟨?_, ?hcalls, ?_, ihPend, ihSusp⟩
          case hcalls => exact le_trans ihCalls (by omega)
          · intro c hc
            rcases ihExec c hc with hc' | hc'
            · rcases List.mem_append.mp hc' with hc'' | hc''
              · exact .inl hc''
              · exact .inr (mem_readonly hc'')
            · exact .inr hc'
          · intro h
            obtain ⟨e1, e2, e3⟩ := ihExh h
            refine ⟨by rw [e1]; omega, ?_, e3⟩
            rw [show count + (fuel + 1) = count + 1 + fuel by omega]
            exact e2

end KubeCopilot

namespace KubeCopilot

theorem handleTurn_empty (planner : Planner) (exec : ToolCall → ToolResult)
    (st : Option PendingAction) (requestText : String) (h : (trimJs requestText) = "") :
    handleTurn planner exec true st requestText = ⟨[], st, none, false, false, true⟩ := by
  simp [handleTurn, h]

theorem handleTurn_none (planner : Planner) (exec : ToolCall → ToolResult)
    (requestText : String) (h : (trimJs requestText) ≠ "") :
    handleTurn planner exec true none requestText =
      ⟨(runAgentLoop planner exec (trimJs requestText) []).executed,
       (runAgentLoop planner exec (trimJs requestText) []).pending, none,
       (runAgentLoop planner exec (trimJs requestText) []).ended == .suspended,
       false, false⟩ := by
  simp [handleTurn, h]

theorem handleTurn_affirm_done (planner : Planner) (exec : ToolCall → ToolResult)
    (pending : PendingAction) (requestText : String)
    (h2 : isAffirm (trimJs requestText) = true) (h3 : pending.plan.done = true) :
    handleTurn planner exec true (some pending) requestText =
      ⟨pending.pendingToolCalls, none,
       some (pending.priorResults ++ pending.pendingToolCalls.map exec),
       false, false, false⟩ := by
  have h1 : ¬(trimJs requestText = "") := fun he => by
    rw [he] at h2; exact absurd h2 (by decide)
  simp [handleTurn, h1, h2, h3]

theorem handleTurn_affirm_notdone (planner : Planner) (exec : ToolCall → ToolResult)
    (pending : PendingAction) (requestText : String)
    (h2 : isAffirm (trimJs requestText) = true) (h3 : pending.plan.done = false) :
    handleTurn planner exec true (some pending) requestText =
      ⟨pending.pendingToolCalls ++
         (runAgentLoop planner exec pending.originalUserText
           (pending.priorResults ++ pending.pendingToolCalls.map exec)).executed,
       (runAgentLoop planner exec pending.originalUserText
         (pending.priorResults ++ pending.pendingToolCalls.map exec)).pending,
       some (pending.priorResults ++ pending.pendingToolCalls.map exec),
       (runAgentLoop planner exec pending.originalUserText
         (pending.priorResults ++ pending.pendingToolCalls.map exec)).ended == .suspended,
       false, false⟩ := by
  have h1 : ¬(trimJs requestText = "") := fun he => by
    rw [he] at h2; exact absurd h2 (by decide)
  simp [handleTurn, h1, h2, h3]

theorem handleTurn_negative (planner : Planner) (exec : ToolCall → ToolResult)
    (pending : PendingAction) (requestText : String)
    (h2 : isAffirm (trimJs requestText) = false) (h3 : isNeg (trimJs requestText) = true) :
    handleTurn planner exec true (some pending) requestText =
      ⟨[], none, none, false, true, false⟩ := by
  have h1 : ¬(trimJs requestText = "") := fun he => by
    rw [he] at h3; exact absurd h3 (by decide)
  simp [handleTurn, h1, h2, h3]

theorem handleTurn_fallthrough (planner : Planner) (exec : ToolCall → ToolResult)
    (pending : PendingAction) (requestText : String) (h1 : (trimJs requestText) ≠ "")
    (h2 : isAffirm (trimJs requestText) = false) (h3 : isNeg (trimJs requestText) = false) :
    handleTurn planner exec true (some pending) requestText =
      ⟨(runAgentLoop planner exec (trimJs requestText) []).executed,
       ((runAgentLoop planner exec (trimJs requestText) []).pending).orElse
         (fun _ => some pending), none,
       (runAgentLoop planner exec (trimJs requestText) []).ended == .suspended,
       false, false⟩ := by
  simp [handleTurn, h1, h2, h3]

/-- The bounded loop started with an empty execution trace only ever
executes read-only calls. -/
theorem runAgentLoop_executed_readonly (planner : Planner) (exec : ToolCall → ToolResult)
    (userText : String) (initialResults : List ToolResult) :
    ∀ c ∈ (runAgentLoop planner exec userText initialResults).executed,
      isMutating c.tool = false := by
  intro c hc
  obtain ⟨hexec, -, -, -, -⟩ :=
    runLoopAux_spec planner exec userText MAX_ITERATIONS 0 initialResults [] ""
  rcases hexec c hc with h | h
  · simp at h
  · exact h

/-- The bounded loop stores a pending action exactly when it suspends at the
confirmation prompt, and the stored queue is a non-empty list of mutating
calls. -/
theorem runAgentLoop_pending (planner : Planner) (exec : ToolCall → ToolResult)
    (userText : String) (initialResults : List ToolResult) :
    ∀ pa, (runAgentLoop planner exec userText initialResults).pending = some pa →
      (runAgentLoop planner exec userText initialResults).ended = .suspended
      ∧ pa.pendingToolCalls ≠ []
      ∧ ∀ c ∈ pa.pendingToolCalls, isMutating c.tool = true := by
  intro pa hpa
  obtain ⟨-, -, -, hpend, -⟩ :=
    runLoopAux_spec planner exec userText MAX_ITERATIONS 0 initialResults [] ""
  exact hpend pa hpa

/-- Claim C1: in every turn, a mutating tool call is passed to the dispatcher
only as a member of a stored PendingAction that the turn's text confirmed
with the affirmative pattern; a planning turn (no pending confirmation)
executes no mutating call, and when it proposes mutating calls it only
stores them in a PendingAction and emits the confirmation prompt; a turn
matching the negative pattern executes nothing and clears the stored
PendingAction, so its queued mutating calls are never executed. -/
theorem confirm_gate_no_mutation (planner : Planner) (exec : ToolCall → ToolResult)
    (st : Option PendingAction) (requestText : String) :
    (∀ c ∈ (handleTurn planner exec true st requestText).executed,
        isMutating c.tool = true →
        ∃ p, st = some p ∧ isAffirm (trimJs requestText) = true ∧ c ∈ p.pendingToolCalls)
    ∧ (st = none →
        ∀ pa, (handleTurn planner exec true st requestText).pendingAfter = some pa →
          (handleTurn planner exec true st requestText).prompted = true
          ∧ pa.pendingToolCalls ≠ []
          ∧ ∀ c ∈ pa.pendingToolCalls, isMutating c.tool = true)
    ∧ (∀ p, st = some p → isAffirm (trimJs requestText) = false → isNeg (trimJs requestText) = true →
        (handleTurn planner exec true st requestText).executed = []
        ∧ (handleTurn planner exec true st requestText).pendingAfter = none) := by
  by_cases hemp : (trimJs requestText) = ""
  · rw [handleTurn_empty planner exec st requestText hemp]
    refine ⟨fun c hc => by simp at hc, fun hst pa hpa => by simp [hst] at hpa,
      fun p hp h2 h3 => ?_⟩
    rw [hemp] at h3; exact absurd h3 (by decide)
  · rcases st with _ | pending
    · rw [handleTurn_none planner exec requestText hemp]
      refine ⟨fun c hc hmut => ?_, fun _ pa hpa => ?_, fun p hp => by simp at hp⟩
      · have := runAgentLoop_executed_readonly planner exec (trimJs requestText) [] c hc
        rw [hmut] at this; exact absurd this (by decide)
      · obtain ⟨hsusp, hne, hmutc⟩ :=
          runAgentLoop_pending planner exec (trimJs requestText) [] pa hpa
        exact ⟨by simp [hsusp], hne, hmutc⟩
    · by_cases haff : isAffirm (trimJs requestText) = true
      · by_cases hdone : pending.plan.done = true
        · rw [handleTurn_affirm_done planner exec pending requestText haff hdone]
          refine ⟨fun c hc _ => ⟨pending, rfl, haff, hc⟩,
            fun hst => by simp at hst, fun p hp h2 h3 => ?_⟩
          rw [haff] at h2; exact absurd h2 (by decide)
        · rw [handleTurn_affirm_notdone planner exec pending requestText haff
            (Bool.not_eq_true _ ▸ hdone)]
          refine ⟨fun c hc hmut => ?_, fun hst => by simp at hst, fun p hp h2 h3 => ?_⟩
          · rcases List.mem_append.mp hc with hc' | hc'
            · exact ⟨pending, rfl, haff, hc'⟩
            · have := runAgentLoop_executed_readonly planner exec
                pending.originalUserText
                (pending.priorResults ++ pending.pendingToolCalls.map exec) c hc'
              rw [hmut] at this; exact absurd this (by decide)
          · rw [haff] at h2; exact absurd h2 (by decide)
      · have haff' : isAffirm (trimJs requestText) = false := Bool.not_eq_true _ ▸ haff
        by_cases hneg : isNeg (trimJs requestText) = true
        · rw [handleTurn_negative planner exec pending requestText haff' hneg]
          exact ⟨fun c hc => by simp at hc, fun hst => by simp at hst,
            fun p hp _ _ => ⟨rfl, rfl⟩⟩
        · have hneg' : isNeg (trimJs requestText) = false := Bool.not_eq_true _ ▸ hneg
          rw [handleTurn_fallthrough planner exec pending requestText hemp haff' hneg']
          refine ⟨fun c hc hmut => ?_, fun hst => by simp at hst,
            fun p hp _ h3 => absurd h3 (by simp [hneg'])⟩
          have := runAgentLoop_executed_readonly planner exec (trimJs requestText) [] c hc
          rw [hmut] at this; exact absurd this (by decide)

/-- Claim C1 witness: a planning turn whose plan contains a mutating call
stores it in a PendingAction and emits the confirmation prompt. -/
theorem confirm_gate_no_mutation_witness :
    (handleTurn plannerMut execFixture true none "deploy nginx").prompted = true :=
  ((confirm_gate_no_mutation plannerMut execFixture none "deploy nginx").2.1 rfl
    pendMut (by decide)).1

end KubeCopilot

namespace KubeCopilot

/-- Claim C4: on a turn that confirms a stored PendingAction, the result
history right after the confirmed batch is the stored prior history
extended with exactly one dispatcher outcome per queued mutating call, in
the original queued order — one append per call whether the outcome is a
success or a failure, with no fail-fast short-circuit (the equation holds
for every dispatcher behaviour `exec`); the execution trace of the turn
starts with exactly the queued calls (anything after them comes from the
re-entered planning loop and is read-only); the stored PendingAction is
cleared: for a `done` plan nothing else runs and no pending action remains,
and for a non-`done` plan the session's pending entry is whatever the
re-entered loop leaves. -/
theorem confirmed_batch_execution (planner : Planner) (exec : ToolCall → ToolResult)
    (p : PendingAction) (requestText : String)
    (h : isAffirm (trimJs requestText) = true) :
    (handleTurn planner exec true (some p) requestText).confirmResults
      = some (p.priorResults ++ p.pendingToolCalls.map exec)
    ∧ (∃ rest, (handleTurn planner exec true (some p) requestText).executed
        = p.pendingToolCalls ++ rest ∧ ∀ c ∈ rest, isMutating c.tool = false)
    ∧ (p.plan.done = true →
        (handleTurn planner exec true (some p) requestText).executed = p.pendingToolCalls
        ∧ (handleTurn planner exec true (some p) requestText).pendingAfter = none)
    ∧ (p.plan.done = false →
        (handleTurn planner exec true (some p) requestText).pendingAfter
          = (runAgentLoop planner exec p.originalUserText
              (p.priorResults ++ p.pendingToolCalls.map exec)).pending) := by
  by_cases hdone : p.plan.done = true
  · rw [handleTurn_affirm_done planner exec p requestText h hdone]
    exact ⟨rfl, ⟨[], by simp, by simp⟩, fun _ => ⟨rfl, rfl⟩,
      fun hf => by rw [hdone] at hf; cases hf⟩
  · have hdone' : p.plan.done = false := Bool.not_eq_true _ ▸ hdone
    rw [handleTurn_affirm_notdone planner exec p requestText h hdone']
    refine ⟨rfl, ⟨_, rfl, ?_⟩, ?_, fun _ => rfl⟩
    · exact runAgentLoop_executed_readonly planner exec p.originalUserText _
    · intro ht; rw [hdone'] at ht; cases ht

/-- Claim C4 witness: the theorem applied to a concrete pending action and
the turn "confirm". -/
theorem confirmed_batch_execution_witness :
    (handleTurn plannerGreet execFixture true (some pendScale) "confirm").confirmResults
      = some (pendScale.priorResults ++ pendScale.pendingToolCalls.map execFixture) :=
  (confirmed_batch_execution plannerGreet execFixture pendScale "confirm" (by decide)).1

/-- Claim C5 (counterexample): with a stored PendingAction holding a queued
mutating `scaleDeployment` call, a turn "hello" (matching neither pattern)
leaves the PendingAction in the session store, and a later "confirm" turn
executes the old queued mutating call — the record is not abandoned. -/
theorem pending_retained_counterexample :
    (handleTurn plannerGreet execFixture true (some pendScale) "hello").pendingAfter
      = some pendScale
    ∧ (handleTurn plannerGreet execFixture true
        ((handleTurn plannerGreet execFixture true (some pendScale) "hello").pendingAfter)
        "confirm").executed = [scaleCall]
    ∧ isMutating scaleCall.tool = true := by
  decide

/-- Claim C5 (amended): a turn matching neither the affirmative nor the
negative pattern runs a fresh bounded planning loop over the new turn text,
but the stored PendingAction is not deleted: it remains the session's
confirmable state unless the fresh loop suspends and overwrites it with a
newly stored PendingAction, and a later affirmative turn executes the old
queued mutating calls. -/
theorem nonmatching_turn_retains_pending (planner : Planner)
    (exec : ToolCall → ToolResult) (p : PendingAction) (requestText : String)
    (h1 : trimJs requestText ≠ "") (h2 : isAffirm (trimJs requestText) = false)
    (h3 : isNeg (trimJs requestText) = false) :
    (handleTurn planner exec true (some p) requestText).executed
      = (runAgentLoop planner exec (trimJs requestText) []).executed
    ∧ (handleTurn planner exec true (some p) requestText).pendingAfter
      = some ((runAgentLoop planner exec (trimJs requestText) []).pending.getD p) := by
  rw [handleTurn_fallthrough planner exec p requestText h1 h2 h3]
  refine ⟨rfl, ?_⟩
  rcases hp : (runAgentLoop planner exec (trimJs requestText) []).pending with _ | q <;>
    simp [hp, Option.orElse]

/-- Claim C5 witness: the amended theorem applied to the turn "hello" with a
planner that finishes without proposing calls, so the old pending action
survives. -/
theorem nonmatching_turn_retains_pending_witness :
    (handleTurn plannerGreet execFixture true (some pendScale) "hello").pendingAfter
      = some ((runAgentLoop plannerGreet execFixture (trimJs "hello") []).pending.getD
          pendScale) :=
  (nonmatching_turn_retains_pending plannerGreet execFixture pendScale "hello"
    (by decide) (by decide) (by decide)).2

/-- Claim C7 (code bug): when the reasoning oracle is unavailable to the
formatter (`vscode.lm` missing, or no chat model returned), `formatWithLm`
only returns the raw JSON dump of the result history to its caller — which
discards it — and emits nothing to the user's response stream, so the turn
ends without any rendered response, contrary to the raw-dump fallback the
spec describes. -/
theorem formatter_fallback_not_streamed :
    (formatWithLm false [] "is my-app healthy?" "s" [sampleResult]).1 = []
    ∧ (formatWithLm false [] "is my-app healthy?" "s" [sampleResult]).2
        = renderResults [sampleResult]
    ∧ (formatWithLm true [] "is my-app healthy?" "s" [sampleResult]).1 = [] :=
  ⟨rfl, rfl, rfl⟩

/-- Claim C8: the bounded planning loop performs at most
`MAX_ITERATIONS = 10` planner calls per unconfirmed turn (the counter
starts at zero and each iteration makes exactly one planner call), and if
all ten iterations run without a done or suspend exit the loop stops with
the maximum-iterations notice followed by formatting of the accumulated
results. -/
theorem planning_loop_bounded (planner : Planner) (exec : ToolCall → ToolResult)
    (userText : String) (initialResults : List ToolResult) :
    (runAgentLoop planner exec userText initialResults).plannerCalls ≤ MAX_ITERATIONS
    ∧ ((runAgentLoop planner exec userText initialResults).ended = .exhausted →
        (runAgentLoop planner exec userText initialResults).plannerCalls = MAX_ITERATIONS
        ∧ (runAgentLoop planner exec userText initialResults).maxNotice = true
        ∧ (runAgentLoop planner exec userText initialResults).formatted = true) := by
  unfold runAgentLoop
  obtain ⟨-, hcalls, hexh, -, -⟩ :=
    runLoopAux_spec planner exec userText MAX_ITERATIONS 0 initialResults [] ""
  refine ⟨by simpa using hcalls, fun h => ?_⟩
  obtain ⟨e1, e2, e3⟩ := hexh h
  refine ⟨by simpa using e1, ?_, e3⟩
  rw [e2]; rfl

/-- Claim C8 witness: a planner that never reports done exhausts exactly the
ten iterations and triggers the notice. -/
theorem planning_loop_bounded_witness :
    (runAgentLoop plannerSpin execFixture "keep going" []).maxNotice = true :=
  ((planning_loop_bounded plannerSpin execFixture "keep going" []).2 (by decide)).2.1

/-- Claim C9: the fallback planner is a pure function of the request text,
the default namespace and the prior results, with the three specified
behaviours: the namespaces query yields the single `listNamespaces` call
with `done = true`; "scale payments-api to 3" yields the single
`scaleDeployment` call with the parsed name, replica count 3 and the
configured default namespace, with `done = true`; and a request matching no
pattern (with empty prior history) throws the unrecognized-request error. -/
theorem fallbackPlan_deterministic_cases (defaultNamespace : String) :
    fallbackPlan "What namespaces exist?" defaultNamespace []
      = .ok ⟨"List all namespaces", [⟨"listNamespaces", []⟩], true⟩
    ∧ fallbackPlan "scale payments-api to 3" defaultNamespace []
      = .ok ⟨"Scale deployment payments-api to 3",
          [⟨"scaleDeployment", [("name", .vstr "payments-api"),
            ("namespace", .vstr defaultNamespace), ("replicas", .vnum 3)]⟩], true⟩
    ∧ fallbackPlan "please frobnicate the cluster" defaultNamespace []
      = .error "Unable to understand request" :=
  ⟨rfl, rfl, rfl⟩

end KubeCopilot


namespace KubeCopilot

/-! ## Lemmas for the tolerant-parser roundtrip (claim C10) -/

theorem stringMk_data (s : String) : String.mk s.data = s := by
  cases s; rfl

theorem costV_pos (v : Val) : 1 ≤ costV v := by
  cases v <;> simp [costV] <;> omega

theorem costFields_pos (fs : List (String × Val)) : 1 ≤ costFields fs := by
  cases fs <;> simp [costFields] <;> omega

theorem costElems_pos (xs : List Val) : 1 ≤ costElems xs := by
  cases xs <;> simp [costElems] <;> omega

theorem parseStrBody_esc (s : List Char) (rest : List Char)
    (h : ∀ c ∈ s, wfChar c = true) :
    parseStrBody (escChars s ++ '"' :: rest) = some (s, rest) := by
  induction s with
  | nil => simp [escChars, parseStrBody]
  | cons c t ih =>
      have hc := h c (by simp)
      have ht := ih (fun x hx => h x (by simp [hx]))
      simp only [escChars, List.append_assoc]
      by_cases h1 : c = '"'
      · subst h1
        simp [escChar, parseStrBody, unescapeChar, ht]
      · by_cases h2 : c = '\\'
        · subst h2
          simp [escChar, parseStrBody, unescapeChar, ht]
        · by_cases h3 : c = '\n'
          · subst h3
            simp [escChar, parseStrBody, unescapeChar, ht]
          · by_cases h4 : c = '\t'
            · subst h4
              simp [escChar, parseStrBody, unescapeChar, ht]
            · by_cases h5 : c = '\r'
              · subst h5
                simp [escChar, parseStrBody, unescapeChar, ht]
              · have hge : (32 ≤ c.toNat) := by
                  simp only [wfChar, Bool.and_eq_true, Bool.or_eq_true,
                    decide_eq_true_eq] at hc
                  rcases hc.2 with ((hge | h') | h') | h'
                  · exact hge
                  · exact absurd h' h3
                  · exact absurd h' h4
                  · exact absurd h' h5
                have hlt : ¬(c.toNat < 32) := by omega
                simp only [escChar, if_neg h1, if_neg h2, if_neg h3, if_neg h4, if_neg h5,
                  List.cons_append, List.nil_append]
                simp [parseStrBody, h1, h2, hlt, ht]

theorem takeWhile_append_all {p : Char → Bool} :
    ∀ (a b : List Char), (∀ c ∈ a, p c = true) → (b.head?.all (fun c => !p c) = true) →
      (a ++ b).takeWhile p = a ∧ (a ++ b).dropWhile p = b := by
  intro a
  induction a with
  | nil =>
      intro b _ hb
      cases b with
      | nil => simp
      | cons c t =>
          simp only [List.head?, Option.all_some] at hb
          rw [Bool.not_eq_true'] at hb
          simp [List.takeWhile, List.dropWhile, hb]
  | cons c t ih =>
      intro b ha hb
      have hc := ha c (by simp)
      obtain ⟨h1, h2⟩ := ih b (fun x hx => ha x (by simp [hx])) hb
      simp [List.takeWhile, List.dropWhile, hc, h1, h2]

theorem digitVal_digitChar {d : Nat} (h : d < 10) : digitVal (digitChar d) = d := by
  interval_cases d <;> rfl

theorem digitChar_isDigit {d : Nat} (h : d < 10) : (digitChar d).isDigit = true := by
  interval_cases d <;> rfl

theorem natChars_all_digits (n : Nat) : ∀ c ∈ natChars n, c.isDigit = true := by
  intro c hc
  unfold natChars at hc
  split at hc
  · simp at hc; subst hc; rfl
  · simp only [List.mem_reverse, List.mem_map] at hc
    obtain ⟨d, hd, rfl⟩ := hc
    exact digitChar_isDigit (Nat.digits_lt_base (by omega) hd)

theorem natChars_ne_nil (n : Nat) : natChars n ≠ [] := by
  unfold natChars
  split
  · simp
  · simp only [ne_eq, List.reverse_eq_nil_iff, List.map_eq_nil_iff]
    exact Nat.digits_ne_nil_iff_ne_zero.mpr (by assumption)

theorem parseNatChars_render (n : Nat) (rest : List Char)
    (hrest : rest.head?.all (fun c => !c.isDigit) = true) :
    parseNatChars (natChars n ++ rest) = some (n, rest) := by
  obtain ⟨h1, h2⟩ := takeWhile_append_all (natChars n) rest (natChars_all_digits n) hrest
  unfold parseNatChars
  simp only [h1, h2]
  have hne := natChars_ne_nil n
  rw [if_neg (by simpa using hne)]
  have hval : Nat.ofDigits 10 ((natChars n).map digitVal).reverse = n := by
    by_cases h0 : n = 0
    · subst h0; rfl
    · unfold natChars
      rw [if_neg h0]
      rw [List.map_reverse, List.reverse_reverse, List.map_map]
      have heq : (Nat.digits 10 n).map (digitVal ∘ digitChar)
          = (Nat.digits 10 n).map id :=
        List.map_congr_left (fun d hd =>
          digitVal_digitChar (Nat.digits_lt_base (by omega) hd))
      rw [heq, List.map_id, Nat.ofDigits_digits]
  rw [hval]

end KubeCopilot

namespace KubeCopilot

theorem skipWs_not_ws {c : Char} (h : isJsonWs c = false) (l : List Char) :
    skipWs (c :: l) = c :: l := by
  simp [skipWs, h]

theorem isDigit_not_ws {c : Char} (h : c.isDigit = true) : isJsonWs c = false := by
  rcases Bool.eq_false_or_eq_true (isJsonWs c) with hw | hw
  · exfalso
    simp only [isJsonWs, Bool.or_eq_true, beq_iff_eq] at hw
    rcases hw with ((rfl | rfl) | rfl) | rfl <;> simp [Char.isDigit] at h
  · exact hw

theorem renderChars_head (v : Val) :
    ∃ c cs, renderChars v = c :: cs ∧ isJsonWs c = false
      ∧ c ≠ ']' ∧ c ≠ '}' ∧ c ≠ ',' := by
  cases v with
  | vnull => exact ⟨'n', _, rfl, by decide, by decide, by decide, by decide⟩
  | vundef => exact ⟨'n', _, rfl, by decide, by decide, by decide, by decide⟩
  | vbool b =>
      cases b with
      | true => exact ⟨'t', _, rfl, by decide, by decide, by decide, by decide⟩
      | false => exact ⟨'f', _, rfl, by decide, by decide, by decide, by decide⟩
  | vnum n =>
      by_cases hn : n < 0
      · exact ⟨'-', natChars n.natAbs, by simp [renderChars, intChars, hn], by decide,
          by decide, by decide, by decide⟩
      · obtain ⟨c, cs, hcs⟩ : ∃ c cs, natChars n.toNat = c :: cs := by
          rcases hl : natChars n.toNat with _ | ⟨c, cs⟩
          · exact absurd hl (natChars_ne_nil _)
          · exact ⟨c, cs, rfl⟩
        have hd : c.isDigit = true := natChars_all_digits _ c (by rw [hcs]; simp)
        refine ⟨c, cs, by simp [renderChars, intChars, hn, hcs], isDigit_not_ws hd,
          ?_, ?_, ?_⟩
        · exact fun he => absurd (he ▸ hd) (by decide)
        · exact fun he => absurd (he ▸ hd) (by decide)
        · exact fun he => absurd (he ▸ hd) (by decide)
  | vstr s => exact ⟨'"', _, rfl, by decide, by decide, by decide, by decide⟩
  | varr xs => exact ⟨'[', _, rfl, by decide, by decide, by decide, by decide⟩
  | vobj fs => exact ⟨'{', _, rfl, by decide, by decide, by decide, by decide⟩

end KubeCopilot

namespace KubeCopilot

theorem isDigit_ne_braces {c : Char} (h : c.isDigit = true) :
    c ≠ '{' ∧ c ≠ '[' ∧ c ≠ '"' ∧ c ≠ '-' :=
  ⟨fun he => absurd (he ▸ h) (by decide), fun he => absurd (he ▸ h) (by decide),
   fun he => absurd (he ▸ h) (by decide), fun he => absurd (he ▸ h) (by decide)⟩

theorem numRestOk_head {n : Int} {rest : List Char}
    (h : numRestOk (.vnum n) rest = true) :
    rest.head?.all (fun c => !c.isDigit) = true := by
  cases rest with
  | nil => rfl
  | cons c t => simpa [numRestOk] using h

theorem numRestOk_of_head {v : Val} {c : Char} {t : List Char} (h : c.isDigit = false) :
    numRestOk v (c :: t) = true := by
  cases v <;> simp [numRestOk, h]

theorem numRestOk_membersTail (v : Val) (t : List (String × Val)) (tc : Bool)
    (rest : List Char) :
    numRestOk v (renderMembersTail t ++ ((if tc then [','] else []) ++ '}' :: rest))
      = true := by
  cases t with
  | nil => cases tc <;> simp only [renderMembersTail, List.nil_append, if_true, if_false,
      List.cons_append] <;> exact numRestOk_of_head (by decide)
  | cons m t' =>
      simp only [renderMembersTail, List.cons_append]
      exact numRestOk_of_head (by decide)

theorem numRestOk_elemsTail (v : Val) (t : List Val) (rest : List Char) :
    numRestOk v (renderElemsTail t ++ ']' :: rest) = true := by
  cases t with
  | nil => exact numRestOk_of_head (by decide)
  | cons x t' =>
      simp only [renderElemsTail, List.cons_append]
      exact numRestOk_of_head (by decide)

theorem neg_natAbs_of_neg {n : Int} (h : n < 0) : -((n.natAbs : Nat) : Int) = n := by
  omega

end KubeCopilot

namespace KubeCopilot

theorem parse_render_spec : ∀ fuel : Nat,
    (∀ v rest, wfVal v = true → numRestOk v rest = true → costV v ≤ fuel →
      parseVal fuel (renderChars v ++ rest) = some (v, rest))
    ∧ (∀ fs rest (tc : Bool), wfFields fs = true → (tc = true → fs ≠ []) →
        1 + costFields fs ≤ fuel →
        parseObjBody fuel
          (renderMembersChars fs ++ ((if tc then [','] else []) ++ '}' :: rest))
          = some (.vobj fs, rest))
    ∧ (∀ k v rest, wfStr k = true → wfVal v = true → numRestOk v rest = true →
        1 + costV v ≤ fuel →
        parseMember fuel (renderStr k ++ ':' :: (renderChars v ++ rest))
          = some ((k, v), rest))
    ∧ (∀ fs rest (tc : Bool), wfFields fs = true → costFields fs ≤ fuel →
        parseMembersRest fuel
          (renderMembersTail fs ++ ((if tc then [','] else []) ++ '}' :: rest))
          = some (fs, rest))
    ∧ (∀ xs rest, wfElems xs = true → 1 + costElems xs ≤ fuel →
        parseArrBody fuel (renderElemsChars xs ++ ']' :: rest) = some (.varr xs, rest))
    ∧ (∀ xs rest, wfElems xs = true → costElems xs ≤ fuel →
        parseElemsRest fuel (renderElemsTail xs ++ ']' :: rest) = some (xs, rest)) := by
  intro fuel
  induction fuel with
  | zero =>
      refine ⟨fun v rest _ _ hc => ?_, fun fs rest tc _ _ hc => ?_,
        fun k v rest _ _ _ hc => ?_, fun fs rest tc _ hc => ?_,
        fun xs rest _ hc => ?_, fun xs rest _ hc => ?_⟩
      · exact absurd hc (by have := costV_pos v; omega)
      · exact absurd hc (by have := costFields_pos fs; omega)
      · exact absurd hc (by have := costV_pos v; omega)
      · exact absurd hc (by have := costFields_pos fs; omega)
      · exact absurd hc (by have := costElems_pos xs; omega)
      · exact absurd hc (by have := costElems_pos xs; omega)
  | succ fuel ih =>
      obtain ⟨ihV, ihObj, ihMem, ihMems, ihArr, ihElems⟩ := ih
      refine ⟨?_, ?_, ?_, ?_, ?_, ?_⟩
      -- P1: values
      · intro v rest hwf hnum hcost
        cases v with
        | vnull => simp [renderChars, parseVal, skipWs, isJsonWs, List.isPrefixOf, Char.isDigit]
        | vundef => simp [wfVal] at hwf
        | vbool b => cases b <;> simp [renderChars, parseVal, skipWs, isJsonWs, List.isPrefixOf, Char.isDigit]
        | vnum n =>
            rcases Int.lt_or_le n 0 with hn | hn
            · have hh : renderChars (.vnum n) = '-' :: natChars n.natAbs := by
                simp [renderChars, intChars, hn]
              rw [hh]
              simp only [List.cons_append]
              rw [show parseVal (fuel + 1) ('-' :: (natChars n.natAbs ++ rest))
                  = (parseNatChars (natChars n.natAbs ++ rest)).map
                      (fun p => (.vnum (-(p.1 : Int)), p.2)) by
                simp [parseVal, skipWs, isJsonWs]]
              rw [parseNatChars_render _ _ (numRestOk_head hnum)]
              simp only [Option.map_some']
              rw [neg_natAbs_of_neg hn]
            · obtain ⟨c, cs, hcs⟩ : ∃ c cs, natChars n.toNat = c :: cs := by
                rcases hl : natChars n.toNat with _ | ⟨c, cs⟩
                · exact absurd hl (natChars_ne_nil _)
                · exact ⟨c, cs, rfl⟩
              have hd : c.isDigit = true := natChars_all_digits _ c (by rw [hcs]; simp)
              obtain ⟨hb1, hb2, hb3, hb4⟩ := isDigit_ne_braces hd
              have hh : renderChars (.vnum n) = c :: cs := by
                simp [renderChars, intChars, Int.not_lt.mpr hn, hcs]
              rw [hh]
              simp only [List.cons_append]
              rw [show parseVal (fuel + 1) (c :: (cs ++ rest))
                  = (parseNatChars (c :: (cs ++ rest))).map
                      (fun p => (.vnum (p.1 : Int), p.2)) by
                simp [parseVal, skipWs_not_ws (isDigit_not_ws hd), hb1, hb2, hb3, hb4, hd]]
              rw [show c :: (cs ++ rest) = natChars n.toNat ++ rest by rw [hcs]; rfl]
              rw [parseNatChars_render _ _ (numRestOk_head hnum)]
              simp [Int.toNat_of_nonneg hn]
        | vstr s =>
            have hw : ∀ x ∈ s.data, wfChar x = true := by
              simpa [wfVal, wfStr, List.all_eq_true] using hwf
            show parseVal (fuel + 1) (renderStr s ++ rest) = _
            rw [show renderStr s ++ rest = '"' :: (escChars s.data ++ '"' :: rest) by
              simp [renderStr]]
            rw [show parseVal (fuel + 1) ('"' :: (escChars s.data ++ '"' :: rest))
                = (parseStrBody (escChars s.data ++ '"' :: rest)).map
                    (fun p => (.vstr (String.mk p.1), p.2)) by
              simp [parseVal, skipWs, isJsonWs]]
            rw [parseStrBody_esc s.data rest hw]
            simp [stringMk_data]
        | varr xs =>
            have hwx : wfElems xs = true := by simpa [wfVal] using hwf
            rw [show renderChars (.varr xs) ++ rest
                = '[' :: (renderElemsChars xs ++ ']' :: rest) by
              simp [renderChars]]
            rw [show parseVal (fuel + 1) ('[' :: (renderElemsChars xs ++ ']' :: rest))
                = parseArrBody fuel (renderElemsChars xs ++ ']' :: rest) by
              simp [parseVal, skipWs, isJsonWs]]
            exact ihArr xs rest hwx (by simp [costV] at hcost; omega)
        | vobj fs =>
            have hwx : wfFields fs = true := by simpa [wfVal] using hwf
            rw [show renderChars (.vobj fs) ++ rest
                = '{' :: (renderMembersChars fs ++ ((if false then [','] else [])
                    ++ '}' :: rest)) by
              simp [renderChars]]
            rw [show parseVal (fuel + 1) ('{' :: (renderMembersChars fs
                  ++ ((if false then [','] else []) ++ '}' :: rest)))
                = parseObjBody fuel (renderMembersChars fs
                    ++ ((if false then [','] else []) ++ '}' :: rest)) by
              simp [parseVal, skipWs, isJsonWs]]
            exact ihObj fs rest false hwx (by simp) (by simp [costV] at hcost; omega)
      -- P2: object body
      · intro fs rest tc hwf htc hcost
        cases fs with
        | nil =>
            cases tc with
            | true => exact absurd rfl (htc rfl)
            | false => simp [renderMembersChars, parseObjBody, skipWs, isJsonWs]
        | cons m t =>
            have hk : wfStr m.1 = true := by
              simp only [wfFields, Bool.and_eq_true] at hwf; exact hwf.1.1
            have hv : wfVal m.2 = true := by
              simp only [wfFields, Bool.and_eq_true] at hwf; exact hwf.1.2
            have hwt : wfFields t = true := by
              simp only [wfFields, Bool.and_eq_true] at hwf; exact hwf.2
            have hshape : renderMembersChars (m :: t)
                ++ ((if tc then [','] else []) ++ '}' :: rest)
                = '"' :: (escChars m.1.data ++ '"' :: (':' :: (renderChars m.2
                    ++ (renderMembersTail t ++ ((if tc then [','] else [])
                        ++ '}' :: rest))))) := by
              simp [renderMembersChars, renderStr]
            rw [hshape]
            rw [show parseObjBody (fuel + 1) ('"' :: (escChars m.1.data ++ '"' :: (':'
                  :: (renderChars m.2 ++ (renderMembersTail t
                    ++ ((if tc then [','] else []) ++ '}' :: rest))))))
                = (parseMember fuel ('"' :: (escChars m.1.data ++ '"' :: (':'
                    :: (renderChars m.2 ++ (renderMembersTail t
                      ++ ((if tc then [','] else []) ++ '}' :: rest))))))).bind
                    (fun mp => (parseMembersRest fuel mp.2).map
                      (fun msp => (Val.vobj (mp.1 :: msp.1), msp.2))) by
              simp [parseObjBody, skipWs, isJsonWs]]
            rw [show ('"' : Char) :: (escChars m.1.data ++ '"' :: (':'
                  :: (renderChars m.2 ++ (renderMembersTail t
                    ++ ((if tc then [','] else []) ++ '}' :: rest)))))
                = renderStr m.1 ++ ':' :: (renderChars m.2 ++ (renderMembersTail t
                    ++ ((if tc then [','] else []) ++ '}' :: rest))) by
              simp [renderStr]]
            rw [ihMem m.1 m.2 _ hk hv (numRestOk_membersTail m.2 t tc rest)
              (by simp [costFields] at hcost; have := costFields_pos t; omega)]
            simp only [Option.some_bind]
            rw [ihMems t rest tc hwt
              (by simp [costFields] at hcost; have := costV_pos m.2; omega)]
            simp
      -- P3: member
      · intro k v rest hk hv hnum hcost
        have hw : ∀ x ∈ k.data, wfChar x = true := by
          simpa [wfStr, List.all_eq_true] using hk
        rw [show renderStr k ++ ':' :: (renderChars v ++ rest)
            = '"' :: (escChars k.data ++ '"' :: (':' :: (renderChars v ++ rest))) by
          simp [renderStr]]
        rw [show parseMember (fuel + 1) ('"' :: (escChars k.data ++ '"'
              :: (':' :: (renderChars v ++ rest))))
            = (parseStrBody (escChars k.data ++ '"' :: (':' :: (renderChars v ++ rest)))).bind
                (fun kp => match skipWs kp.2 with
                  | ':' :: r2 => (parseVal fuel r2).map
                      (fun vp => ((String.mk kp.1, vp.1), vp.2))
                  | _ => none) by
          simp [parseMember, skipWs, isJsonWs]]
        rw [parseStrBody_esc k.data _ hw]
        simp only [Option.some_bind]
        rw [show skipWs (':' :: (renderChars v ++ rest)) = ':' :: (renderChars v ++ rest) from
          skipWs_not_ws (by decide) _]
        show Option.map (fun vp => ((String.mk k.data, vp.1), vp.2))
          (parseVal fuel (renderChars v ++ rest)) = some ((k, v), rest)
        rw [ihV v rest hv hnum (by omega)]
        simp [stringMk_data]
      -- P4: members rest
      · intro fs rest tc hwf hcost
        cases fs with
        | nil =>
            cases tc with
            | true => simp [renderMembersTail, parseMembersRest, skipWs, isJsonWs]
            | false => simp [renderMembersTail, parseMembersRest, skipWs, isJsonWs]
        | cons m t =>
            have hk : wfStr m.1 = true := by
              simp only [wfFields, Bool.and_eq_true] at hwf; exact hwf.1.1
            have hv : wfVal m.2 = true := by
              simp only [wfFields, Bool.and_eq_true] at hwf; exact hwf.1.2
            have hwt : wfFields t = true := by
              simp only [wfFields, Bool.and_eq_true] at hwf; exact hwf.2
            have hshape : renderMembersTail (m :: t)
                ++ ((if tc then [','] else []) ++ '}' :: rest)
                = ',' :: ('"' :: (escChars m.1.data ++ '"' :: (':' :: (renderChars m.2
                    ++ (renderMembersTail t ++ ((if tc then [','] else [])
                        ++ '}' :: rest)))))) := by
              simp [renderMembersTail, renderStr]
            rw [hshape]
            rw [show parseMembersRest (fuel + 1) (',' :: ('"' :: (escChars m.1.data
                  ++ '"' :: (':' :: (renderChars m.2 ++ (renderMembersTail t
                    ++ ((if tc then [','] else []) ++ '}' :: rest)))))))
                = (parseMember fuel ('"' :: (escChars m.1.data ++ '"' :: (':'
                    :: (renderChars m.2 ++ (renderMembersTail t
                      ++ ((if tc then [','] else []) ++ '}' :: rest))))))).bind
                    (fun mp => (parseMembersRest fuel mp.2).map
                      (fun msp => (mp.1 :: msp.1, msp.2))) by
              simp [parseMembersRest, skipWs, isJsonWs]]
            rw [show ('"' : Char) :: (escChars m.1.data ++ '"' :: (':'
                  :: (renderChars m.2 ++ (renderMembersTail t
                    ++ ((if tc then [','] else []) ++ '}' :: rest)))))
                = renderStr m.1 ++ ':' :: (renderChars m.2 ++ (renderMembersTail t
                    ++ ((if tc then [','] else []) ++ '}' :: rest))) by
              simp [renderStr]]
            rw [ihMem m.1 m.2 _ hk hv (numRestOk_membersTail m.2 t tc rest)
              (by simp [costFields] at hcost; have := costFields_pos t; omega)]
            simp only [Option.some_bind]
            rw [ihMems t rest tc hwt
              (by simp [costFields] at hcost; have := costV_pos m.2; omega)]
            simp
      -- P5: array body
      · intro xs rest hwf hcost
        cases xs with
        | nil => simp [renderElemsChars, parseArrBody, skipWs, isJsonWs]
        | cons x t =>
            have hx : wfVal x = true := by
              simp only [wfElems, Bool.and_eq_true] at hwf; exact hwf.1
            have hwt : wfElems t = true := by
              simp only [wfElems, Bool.and_eq_true] at hwf; exact hwf.2
            obtain ⟨c, cs, hcs, hws, hne1, hne2, hne3⟩ := renderChars_head x
            have hshape : renderElemsChars (x :: t) ++ ']' :: rest
                = c :: (cs ++ (renderElemsTail t ++ ']' :: rest)) := by
              simp [renderElemsChars, hcs]
            rw [hshape]
            rw [show parseArrBody (fuel + 1) (c :: (cs ++ (renderElemsTail t ++ ']' :: rest)))
                = (parseVal fuel (c :: (cs ++ (renderElemsTail t ++ ']' :: rest)))).bind
                    (fun vp => (parseElemsRest fuel vp.2).map
                      (fun vsp => (Val.varr (vp.1 :: vsp.1), vsp.2))) by
              simp [parseArrBody, skipWs_not_ws hws, hne1]]
            rw [show c :: (cs ++ (renderElemsTail t ++ ']' :: rest))
                = renderChars x ++ (renderElemsTail t ++ ']' :: rest) by
              rw [hcs]; rfl]
            rw [ihV x _ hx (numRestOk_elemsTail x t rest)
              (by simp [costElems] at hcost; omega)]
            simp only [Option.some_bind]
            rw [ihElems t rest hwt (by simp [costElems] at hcost; have := costV_pos x; omega)]
            simp
      -- P6: elements rest
      · intro xs rest hwf hcost
        cases xs with
        | nil => simp [renderElemsTail, parseElemsRest, skipWs, isJsonWs]
        | cons x t =>
            have hx : wfVal x = true := by
              simp only [wfElems, Bool.and_eq_true] at hwf; exact hwf.1
            have hwt : wfElems t = true := by
              simp only [wfElems, Bool.and_eq_true] at hwf; exact hwf.2
            obtain ⟨c, cs, hcs, hws, hne1, hne2, hne3⟩ := renderChars_head x
            have hshape : renderElemsTail (x :: t) ++ ']' :: rest
                = ',' :: (c :: (cs ++ (renderElemsTail t ++ ']' :: rest))) := by
              simp [renderElemsTail, hcs]
            rw [hshape]
            rw [show parseElemsRest (fuel + 1) (',' :: (c :: (cs ++ (renderElemsTail t
                  ++ ']' :: rest))))
                = (parseVal fuel (c :: (cs ++ (renderElemsTail t ++ ']' :: rest)))).bind
                    (fun vp => (parseElemsRest fuel vp.2).map
                      (fun vsp => (vp.1 :: vsp.1, vsp.2))) by
              simp [parseElemsRest, skipWs_not_ws (show isJsonWs ',' = false from rfl),
                skipWs_not_ws hws, hne1]]
            rw [show c :: (cs ++ (renderElemsTail t ++ ']' :: rest))
                = renderChars x ++ (renderElemsTail t ++ ']' :: rest) by
              rw [hcs]; rfl]
            rw [ihV x _ hx (numRestOk_elemsTail x t rest)
              (by simp [costElems] at hcost; omega)]
            simp only [Option.some_bind]
            rw [ihElems t rest hwt (by simp [costElems] at hcost; have := costV_pos x; omega)]
            simp

end KubeCopilot

namespace KubeCopilot

theorem membersTail_len (t : List (String × Val)) :
    (renderMembersChars t).length ≤ (renderMembersTail t).length := by
  cases t with
  | nil => simp [renderMembersChars, renderMembersTail]
  | cons m t' => simp [renderMembersChars, renderMembersTail]

theorem elemsTail_len (t : List Val) :
    (renderElemsChars t).length ≤ (renderElemsTail t).length := by
  cases t with
  | nil => simp [renderElemsChars, renderElemsTail]
  | cons x t' => simp [renderElemsChars, renderElemsTail]

theorem renderChars_len_pos (v : Val) : 1 ≤ (renderChars v).length := by
  obtain ⟨c, cs, hcs, -⟩ := renderChars_head v
  simp [hcs]

mutual

theorem costV_le : ∀ v : Val, costV v + 1 ≤ 4 * (renderChars v).length
  | .vnull => by simp [costV, renderChars]
  | Val.vundef => by simp [costV, renderChars]
  | .vbool b => by cases b <;> simp [costV, renderChars] <;> omega
  | .vnum n => by
      have := renderChars_len_pos (.vnum n)
      simp only [costV]
      omega
  | .vstr s => by
      simp [costV, renderChars, renderStr]
      omega
  | .varr xs => by
      have h := costElems_le xs
      simp only [costV, renderChars, List.length_cons, List.length_append]
      simp at h ⊢
      omega
  | .vobj fs => by
      have h := costFields_le fs
      simp only [costV, renderChars, List.length_cons, List.length_append]
      simp at h ⊢
      omega

theorem costFields_le : ∀ fs : List (String × Val),
    costFields fs ≤ 4 * (renderMembersChars fs).length + 5
  | [] => by simp [costFields, renderMembersChars]
  | m :: t => by
      have h1 := costV_le m.2
      have h2 := costFields_le t
      have h3 := membersTail_len t
      simp only [costFields, renderMembersChars, List.length_append, List.length_cons]
      have h4 : 2 ≤ (renderStr m.1).length := by simp [renderStr]
      omega

theorem costElems_le : ∀ xs : List Val,
    costElems xs ≤ 4 * (renderElemsChars xs).length + 5
  | [] => by simp [costElems, renderElemsChars]
  | x :: t => by
      have h1 := costV_le x
      have h2 := costElems_le t
      have h3 := elemsTail_len t
      simp only [costElems, renderElemsChars, List.length_append]
      omega

end

theorem escChars_no_bt (s : List Char) (h : ∀ c ∈ s, wfChar c = true) :
    ('`' : Char) ∉ escChars s := by
  induction s with
  | nil => simp [escChars]
  | cons c t ih =>
      have hc := h c (by simp)
      have hne : c ≠ '`' := by
        simp only [wfChar, Bool.and_eq_true, bne_iff_ne, ne_eq] at hc
        exact hc.1
      have ht := ih (fun x hx => h x (by simp [hx]))
      simp only [escChars, List.mem_append]
      rintro (hm | hm)
      · unfold escChar at hm
        split_ifs at hm <;> simp at hm <;> exact hne hm.symm
      · exact ht hm

theorem natChars_no_bt (n : Nat) : ('`' : Char) ∉ natChars n := by
  intro hm
  have := natChars_all_digits n '`' hm
  simp [Char.isDigit] at this

theorem intChars_no_bt (n : Int) : ('`' : Char) ∉ intChars n := by
  unfold intChars
  split
  · simp only [List.mem_cons]
    rintro (h | h)
    · simp at h
    · exact natChars_no_bt _ h
  · exact natChars_no_bt _

theorem renderStr_no_bt (s : String) (h : wfStr s = true) :
    ('`' : Char) ∉ renderStr s := by
  have hw : ∀ c ∈ s.data, wfChar c = true := by
    simpa [wfStr, List.all_eq_true] using h
  have he := escChars_no_bt s.data hw
  simp [renderStr, he]

mutual

theorem renderChars_no_bt : ∀ v : Val, wfVal v = true → ('`' : Char) ∉ renderChars v
  | .vnull, _ => by decide
  | Val.vundef, h => by simp [wfVal] at h
  | .vbool b, _ => by cases b <;> decide
  | .vnum n, _ => by simp only [renderChars]; exact intChars_no_bt n
  | .vstr s, h => by simp only [renderChars]; exact renderStr_no_bt s (by simpa [wfVal] using h)
  | .varr xs, h => by
      have hx : wfElems xs = true := by simpa [wfVal] using h
      have h1 := renderElems_no_bt xs hx
      simp [renderChars, h1]
  | .vobj fs, h => by
      have hx : wfFields fs = true := by simpa [wfVal] using h
      have h1 := renderMembers_no_bt fs hx
      simp [renderChars, h1]

theorem renderMembers_no_bt : ∀ fs : List (String × Val), wfFields fs = true →
    ('`' : Char) ∉ renderMembersChars fs
  | [], _ => by simp [renderMembersChars]
  | m :: t, h => by
      have hk : wfStr m.1 = true := by
        simp only [wfFields, Bool.and_eq_true] at h; exact h.1.1
      have hv : wfVal m.2 = true := by
        simp only [wfFields, Bool.and_eq_true] at h; exact h.1.2
      have ht : wfFields t = true := by
        simp only [wfFields, Bool.and_eq_true] at h; exact h.2
      have h1 := renderStr_no_bt m.1 hk
      have h2 := renderChars_no_bt m.2 hv
      have h3 := renderMembersTail_no_bt t ht
      simp [renderMembersChars, h1, h2, h3]

theorem renderMembersTail_no_bt : ∀ fs : List (String × Val), wfFields fs = true →
    ('`' : Char) ∉ renderMembersTail fs
  | [], _ => by simp [renderMembersTail]
  | m :: t, h => by
      have hk : wfStr m.1 = true := by
        simp only [wfFields, Bool.and_eq_true] at h; exact h.1.1
      have hv : wfVal m.2 = true := by
        simp only [wfFields, Bool.and_eq_true] at h; exact h.1.2
      have ht : wfFields t = true := by
        simp only [wfFields, Bool.and_eq_true] at h; exact h.2
      have h1 := renderStr_no_bt m.1 hk
      have h2 := renderChars_no_bt m.2 hv
      have h3 := renderMembersTail_no_bt t ht
      simp [renderMembersTail, h1, h2, h3]

theorem renderElems_no_bt : ∀ xs : List Val, wfElems xs = true →
    ('`' : Char) ∉ renderElemsChars xs
  | [], _ => by simp [renderElemsChars]
  | x :: t, h => by
      have hx : wfVal x = true := by
        simp only [wfElems, Bool.and_eq_true] at h; exact h.1
      have ht : wfElems t = true := by
        simp only [wfElems, Bool.and_eq_true] at h; exact h.2
      have h1 := renderChars_no_bt x hx
      have h2 := renderElemsTail_no_bt t ht
      simp [renderElemsChars, h1, h2]

theorem renderElemsTail_no_bt : ∀ xs : List Val, wfElems xs = true →
    ('`' : Char) ∉ renderElemsTail xs
  | [], _ => by simp [renderElemsTail]
  | x :: t, h => by
      have hx : wfVal x = true := by
        simp only [wfElems, Bool.and_eq_true] at h; exact h.1
      have ht : wfElems t = true := by
        simp only [wfElems, Bool.and_eq_true] at h; exact h.2
      have h1 := renderChars_no_bt x hx
      have h2 := renderElemsTail_no_bt t ht
      simp [renderElemsTail, h1, h2]

end

theorem mem_of_isPrefixOf : ∀ (p l : List Char), p.isPrefixOf l = true → ∀ a ∈ p, a ∈ l := by
  intro p
  induction p with
  | nil => intro l _ a ha; simp at ha
  | cons c t ih =>
      intro l hp a ha
      cases l with
      | nil => simp [List.isPrefixOf] at hp
      | cons d r =>
          simp only [List.isPrefixOf, Bool.and_eq_true, beq_iff_eq] at hp
          rcases List.mem_cons.mp ha with rfl | ha'
          · simp [hp.1]
          · simp [ih r hp.2 a ha']

theorem removeFirst_of_not_mem {x : Char} {needle hay : List Char}
    (hx : x ∈ needle) (hh : x ∉ hay) : removeFirst needle hay = hay := by
  induction hay with
  | nil => rfl
  | cons c t ih =>
      have hxc : x ∉ (c :: t) := hh
      unfold removeFirst
      rw [if_neg]
      · rw [ih (fun hm => hh (by simp [hm]))]
      · intro hp
        exact hh (mem_of_isPrefixOf needle (c :: t) hp x hx)

theorem removeFirst_append {x : Char} {nd : List Char} {l m : List Char} (hx : x ∉ l) :
    removeFirst (x :: nd) (l ++ m) = l ++ removeFirst (x :: nd) m := by
  induction l with
  | nil => rfl
  | cons c t ih =>
      have hne : x ≠ c := fun he => hx (by simp [he])
      simp only [List.cons_append]
      have hstep : removeFirst (x :: nd) (c :: (t ++ m)) =
          if (x :: nd).isPrefixOf (c :: (t ++ m)) = true
          then (c :: (t ++ m)).drop (x :: nd).length
          else c :: removeFirst (x :: nd) (t ++ m) := rfl
      rw [hstep, if_neg, ih (fun hm => hx (by simp [hm]))]
      simp only [List.isPrefixOf, Bool.and_eq_true, beq_iff_eq]
      rintro ⟨rfl, -⟩
      exact hne rfl

end KubeCopilot

namespace KubeCopilot

theorem tolParse_render_obj (fs : List (String × Val)) (hwf : wfVal (.vobj fs) = true) :
    tolParse (renderVal (.vobj fs)) = some (.vobj fs) := by
  have hcost : costV (.vobj fs) ≤ 4 * (renderVal (.vobj fs)).length + 8 := by
    have h := costV_le (.vobj fs)
    rw [show (renderVal (.vobj fs)).length = (renderChars (.vobj fs)).length from rfl]
    omega
  have hp := (parse_render_spec (4 * (renderVal (.vobj fs)).length + 8)).1 (.vobj fs) []
      hwf rfl hcost
  rw [List.append_nil] at hp
  unfold tolParse
  rw [show (renderVal (.vobj fs)).data = renderChars (.vobj fs) from rfl, hp]
  rfl

theorem planParse_render_obj (fs : List (String × Val)) (hwf : wfVal (.vobj fs) = true) :
    planParse (renderVal (.vobj fs)) = some (.vobj fs) := by
  have hnb : ('`' : Char) ∉ renderChars (.vobj fs) := renderChars_no_bt _ hwf
  have hclean : cleanOracle (renderVal (.vobj fs)) = renderVal (.vobj fs) := by
    show String.mk (removeFirst "```".data
        (removeFirst "```json".data (renderVal (.vobj fs)).data)) = _
    rw [show (renderVal (.vobj fs)).data = renderChars (.vobj fs) from rfl]
    rw [removeFirst_of_not_mem (show ('`' : Char) ∈ "```json".data by decide) hnb]
    rw [removeFirst_of_not_mem (show ('`' : Char) ∈ "```".data by decide) hnb]
    rfl
  unfold planParse
  rw [hclean, tolParse_render_obj fs hwf]
  rfl

theorem cleanOracle_fenced (fs : List (String × Val)) (hwf : wfVal (.vobj fs) = true) :
    cleanOracle (fenceWrap (renderValTC (.vobj fs))) =
      String.mk ('\n' :: '{' :: ((renderMembersChars fs ++ [',', '}']) ++ ['\n'])) := by
  have hdata : (fenceWrap (renderValTC (.vobj fs))).data =
      '`' :: '`' :: '`' :: 'j' :: 's' :: 'o' :: 'n' :: '\n' :: '{' ::
        ((renderMembersChars fs ++ [',', '}']) ++ ('\n' :: '`' :: '`' :: '`' :: [])) := rfl
  show String.mk (removeFirst "```".data
      (removeFirst "```json".data (fenceWrap (renderValTC (.vobj fs))).data)) = _
  rw [hdata]
  have hrm1 : removeFirst "```json".data
      ('`' :: '`' :: '`' :: 'j' :: 's' :: 'o' :: 'n' :: '\n' :: '{' ::
        ((renderMembersChars fs ++ [',', '}']) ++ ('\n' :: '`' :: '`' :: '`' :: []))) =
      '\n' :: '{' :: ((renderMembersChars fs ++ [',', '}']) ++ ('\n' :: '`' :: '`' :: '`' :: [])) :=
    rfl
  rw [hrm1]
  have hassoc : '\n' :: '{' :: ((renderMembersChars fs ++ [',', '}']) ++ ('\n' :: '`' :: '`' :: '`' :: [])) =
      ('\n' :: '{' :: ((renderMembersChars fs ++ [',', '}']) ++ ['\n'])) ++ ['`', '`', '`'] := by
    simp
  rw [hassoc]
  have hx : ('`' : Char) ∉ ('\n' :: '{' :: ((renderMembersChars fs ++ [',', '}']) ++ ['\n'])) := by
    have h1 := renderMembers_no_bt fs (by simpa [wfVal] using hwf)
    simp [h1]
  rw [show ("```".data : List Char) = '`' :: ['`', '`'] from rfl]
  rw [removeFirst_append hx]
  rw [show removeFirst ('`' :: ['`', '`']) ['`', '`', '`'] = ([] : List Char) from rfl]
  rw [List.append_nil]

theorem tolParse_fenced (fs : List (String × Val)) (hwf : wfVal (.vobj fs) = true)
    (hne : fs ≠ []) :
    tolParse (String.mk ('\n' :: '{' :: ((renderMembersChars fs ++ [',', '}']) ++ ['\n']))) =
      some (.vobj fs) := by
  have hwff : wfFields fs = true := by simpa [wfVal] using hwf
  have hlen : (String.mk ('\n' :: '{' :: ((renderMembersChars fs ++ [',', '}']) ++ ['\n']))).length =
      (renderMembersChars fs).length + 5 := by
    show ('\n' :: '{' :: ((renderMembersChars fs ++ [',', '}']) ++ ['\n'])).length = _
    simp
  have hobj : parseObjBody (4 * ((renderMembersChars fs).length + 5) + 7)
      (renderMembersChars fs ++ ((if true then [','] else []) ++ '}' :: ['\n'])) =
      some (.vobj fs, ['\n']) := by
    apply (parse_render_spec (4 * ((renderMembersChars fs).length + 5) + 7)).2.1 fs ['\n'] true
        hwff (fun _ => hne)
    have h := costFields_le fs
    omega
  have hobj2 : parseObjBody (4 * ((renderMembersChars fs).length + 5) + 7)
      ((renderMembersChars fs ++ [',', '}']) ++ ['\n']) = some (.vobj fs, ['\n']) := by
    rw [show (renderMembersChars fs ++ [',', '}']) ++ ['\n'] =
        renderMembersChars fs ++ ((if true then [','] else []) ++ '}' :: ['\n']) by simp]
    exact hobj
  unfold tolParse
  rw [hlen]
  rw [show (String.mk ('\n' :: '{' :: ((renderMembersChars fs ++ [',', '}']) ++ ['\n']))).data =
      '\n' :: '{' :: ((renderMembersChars fs ++ [',', '}']) ++ ['\n']) from rfl]
  rw [show 4 * ((renderMembersChars fs).length + 5) + 8 =
      (4 * ((renderMembersChars fs).length + 5) + 7) + 1 from rfl]
  rw [show parseVal ((4 * ((renderMembersChars fs).length + 5) + 7) + 1)
      ('\n' :: '{' :: ((renderMembersChars fs ++ [',', '}']) ++ ['\n'])) =
      parseObjBody (4 * ((renderMembersChars fs).length + 5) + 7)
        ((renderMembersChars fs ++ [',', '}']) ++ ['\n']) by
    simp [parseVal, skipWs, isJsonWs]]
  rw [hobj2]
  rfl

theorem planParse_fenced (fs : List (String × Val)) (hwf : wfVal (.vobj fs) = true)
    (hne : fs ≠ []) :
    planParse (fenceWrap (renderValTC (.vobj fs))) = some (.vobj fs) := by
  unfold planParse
  rw [cleanOracle_fenced fs hwf, tolParse_fenced fs hwf hne]
  rfl

end KubeCopilot

namespace KubeCopilot

/-- C10, corrected.  The original claim is false: fence-stripping is done with
string `replace` calls that remove the FIRST occurrence of "```json" and of
"```" anywhere in the response, so a well-formed plan document containing a
backtick run inside a string field is mangled (see the counterexample).  The
amended claim restricts to plan documents whose strings are backtick-free (and
whose object is non-empty, so that a trailing comma can follow a last field):
for every such document, the tolerant parse of the fenced, trailing-comma
variant and the parse of the plain rendering agree, both recovering the
document itself. -/
theorem tolerant_fenced_parse_agrees (fs : List (String × Val))
    (hwf : wfVal (.vobj fs) = true) (hne : fs ≠ []) :
    planParse (fenceWrap (renderValTC (.vobj fs))) = planParse (renderVal (.vobj fs))
    ∧ planParse (renderVal (.vobj fs)) = some (.vobj fs) := by
  have h1 := planParse_render_obj fs hwf
  have h2 := planParse_fenced fs hwf hne
  exact ⟨h2.trans h1.symm, h1⟩

/-- Counterexample to C10 as stated: the plan document
`{"summary":"a```jsonb","toolCalls":[],"done":true}` is well-formed JSON, but
its fenced, trailing-comma variant fails tolerant parsing entirely (the
`replace` call strips the OPENING fence characters "```json" out of the
middle of the summary string, leaving the leading fence in place), while the
plain document parses (to a plan whose summary lost its "```json" infix). -/
theorem tolerant_fenced_parse_counterexample :
    planParse (fenceWrap (renderValTC trickyPlanVal)) ≠ planParse (renderVal trickyPlanVal) := by
  decide

/-- Witness instantiating the corrected C10 theorem at a concrete three-field
plan document. -/
theorem tolerant_fenced_parse_agrees_witness :
    planParse (fenceWrap (renderValTC (.vobj [("summary", .vstr "done"),
        ("toolCalls", .varr []), ("done", .vbool true)]))) =
      planParse (renderVal (.vobj [("summary", .vstr "done"),
        ("toolCalls", .varr []), ("done", .vbool true)]))
    ∧ planParse (renderVal (.vobj [("summary", .vstr "done"),
        ("toolCalls", .varr []), ("done", .vbool true)])) =
      some (.vobj [("summary", .vstr "done"),
        ("toolCalls", .varr []), ("done", .vbool true)]) :=
  tolerant_fenced_parse_agrees
    [("summary", .vstr "done"), ("toolCalls", .varr []), ("done", .vbool true)]
    (by decide) (by decide)

end KubeCopilot
